import Mathlib

/-!
Verification development for the SVG Annotator repository.

The repository contains two near-duplicate React implementations of an SVG
annotation tool.  The core pipeline (sanitation / key synthesis in
`safeParseSvg`, the export generators `buildAnnotatedSvg`, `buildHtmlPackage`
and the JSON export, and the click-selection walk) is pure string/tree
manipulation over the parsed SVG document, and is embedded here shallowly:

* a parsed XML document is a tree of elements (tag, attribute list, children)
  and text nodes; `DOMParser`'s parsing itself is host functionality and is
  represented by an `Option Elem` parse result (`none` = no `<svg>` root);
* DOM mutation is modelled by pure tree transformations;
* `querySelector`/`querySelectorAll` on the root match strict descendants in
  document (pre-order) order, as in the DOM;
* JavaScript attribute truthiness (`el.getAttribute(n)` used as a boolean is
  false for a missing attribute and for the empty string) is modelled
  explicitly.
-/

namespace SvgAnnotator

mutual

inductive Elem where
  | el (tag : String) (attrs : List (String × String)) (children : ElemList)
  | txt (s : String)
deriving DecidableEq

inductive ElemList where
  | nil
  | cons (hd : Elem) (tl : ElemList)
deriving DecidableEq

end

/-- Convert an ordinary list of elements into an `ElemList` (for writing
concrete documents). -/
def elist : List Elem → ElemList
  | [] => .nil
  | e :: es => .cons e (elist es)

/-- `getAttribute`: first binding of the attribute name, if present. -/
def getA : List (String × String) → String → Option String
  | [], _ => none
  | (k, w) :: rest, n => if k = n then some w else getA rest n

/-- `setAttribute`: replace the existing binding in place, else append. -/
def setA : List (String × String) → String → String → List (String × String)
  | [], n, v => [(n, v)]
  | (k, w) :: rest, n, v => if k = n then (n, v) :: rest else (k, w) :: setA rest n v

/-- Attribute presence, as tested by a CSS attribute selector `[n]`
(matches the empty value too). -/
def hasA (a : List (String × String)) (n : String) : Bool :=
  (getA a n).isSome

/-- JavaScript truthiness of `el.getAttribute(n)`: present and non-empty. -/
def truthyA (a : List (String × String)) (n : String) : Bool :=
  match getA a n with
  | some v => v ≠ ""
  | none => false

def tagOf : Elem → String
  | .el t _ _ => t
  | .txt _ => ""

def attrsOf : Elem → List (String × String)
  | .el _ a _ => a
  | .txt _ => []

def childrenOf : Elem → ElemList
  | .el _ _ cs => cs
  | .txt _ => .nil

def isElNode : Elem → Bool
  | .el _ _ _ => true
  | .txt _ => false

/-! ### Descendant queries

`root.querySelector(sel)` / `root.querySelectorAll(sel)` match the *strict
descendants* of `root` in document (pre-order) order; the root itself is
never matched.  `existsDescE p e` is "some strict descendant element of `e`
satisfies `p`"; `allDescE p e` is the corresponding universal form. -/

mutual

def existsDescE (p : Elem → Bool) : Elem → Bool
  | .txt _ => false
  | .el _ _ cs => existsDescL p cs

def existsDescL (p : Elem → Bool) : ElemList → Bool
  | .nil => false
  | .cons c cs =>
      (isElNode c && (p c || existsDescE p c)) || existsDescL p cs

end

mutual

def allDescE (p : Elem → Bool) : Elem → Bool
  | .txt _ => true
  | .el _ _ cs => allDescL p cs

def allDescL (p : Elem → Bool) : ElemList → Bool
  | .nil => true
  | .cons c cs =>
      (!isElNode c || (p c && allDescE p c)) && allDescL p cs

end

/-- The primitive shape tags of the `safeParseSvg` selectors:
`"path, rect, circle, ellipse, polygon, polyline, line, text"`. -/
def shapeTags : List String :=
  ["path", "rect", "circle", "ellipse", "polygon", "polyline", "line", "text"]

def isShape (e : Elem) : Bool := shapeTags.contains (tagOf e)

def isGroup (e : Elem) : Bool := tagOf e = "g"

/-- `g.querySelector("path, rect, ...")` — the group (directly or
transitively) contains a primitive shape. -/
def containsShape (e : Elem) : Bool := existsDescE isShape e

/-- One disjunct of the `anyIds` selector
`"g[id], path[id], rect[id], ..."`: a group or shape element carrying an
`id` attribute (any value, per CSS attribute-presence semantics). -/
def isIdCarrier (e : Elem) : Bool :=
  (isGroup e || isShape e) && hasA (attrsOf e) "id"

/-- `svg.querySelector("g[id], path[id], ...")` is non-null: some strict
descendant group/shape carries an `id` attribute. -/
def anyIds (e : Elem) : Bool := existsDescE isIdCarrier e

/-- Selector `[data-annot-key]`: presence of a synthesized-key attribute. -/
def hasKeyAttr (e : Elem) : Bool := hasA (attrsOf e) "data-annot-key"

/-- Selector `[id], [data-annot-key]`: the "selectable" elements. -/
def isSelectable (e : Elem) : Bool :=
  hasA (attrsOf e) "id" || hasA (attrsOf e) "data-annot-key"

/-! ### stripScripts -/

mutual

/-- `stripScripts`: remove every `script` element (whole subtree) among the
strict descendants. -/
def stripE : Elem → Elem
  | .txt s => .txt s
  | .el t a cs => .el t a (stripL cs)

def stripL : ElemList → ElemList
  | .nil => .nil
  | .cons c cs =>
      if tagOf c = "script" then stripL cs
      else .cons (stripE c) (stripL cs)

end

/-! ### Root sizing and interactivity styles -/

/-- The responsive-sizing fragment merged into the root's style. -/
def sizingStyle : String := "max-width:100%;height:auto;"

/-- `svg.setAttribute("style", [svg.getAttribute("style") || "", sizing].join(" "))`. -/
def setRootStyle : Elem → Elem
  | .txt s => .txt s
  | .el t a cs =>
      .el t (setA a "style" (((getA a "style").getD "") ++ " " ++ sizingStyle)) cs

/-- The interactivity fragment appended to every selectable element's style. -/
def interactStyle : String :=
  "; cursor:pointer; pointer-events:all; transition: filter .15s ease, outline .15s ease;"

/-- Append the interactivity fragment to an element's inline style
(`el.setAttribute("style", existing + interactStyle)` with
`existing = el.getAttribute("style") || ""`). -/
def addInteract (a : List (String × String)) : List (String × String) :=
  setA a "style" (((getA a "style").getD "") ++ interactStyle)

mutual

/-- `svg.querySelectorAll("[id], [data-annot-key]").forEach(...)`: appends
the interactivity fragment to every selectable strict descendant, never to
the root itself.  The `forEach` assignments are independent per element, so
the pre-order traversal reproduces them exactly. -/
def injectE : Elem → Elem
  | .txt s => .txt s
  | .el t a cs => .el t a (injectL cs)

def injectL : ElemList → ElemList
  | .nil => .nil
  | .cons (.txt s) cs => .cons (.txt s) (injectL cs)
  | .cons (.el t a cs0) cs =>
      let a' := if isSelectable (.el t a cs0) then addInteract a else a
      .cons (.el t a' (injectL cs0)) (injectL cs)

end

/-! ### Key synthesis pass

`groups.forEach(assignAutoKey)` / `shapes.forEach(assignAutoKey)` over the
pre-order snapshot of matching descendants, with the shared mutable counter
`autoIndex`.  `assignAutoKey` skips an element whose `id` or
`data-annot-key` attribute is truthy (present and non-empty), otherwise sets
`data-annot-key` to `auto_<n>` and increments the counter.  Only attribute
values are mutated, so the snapshot lists and the per-group
`containsShape` checks are unaffected by earlier assignments. -/

/-- The `assignAutoKey` guard: skipped when `id` or `data-annot-key` is truthy. -/
def autoKeyBlocked (a : List (String × String)) : Bool :=
  truthyA a "id" || truthyA a "data-annot-key"

mutual

/-- One synthesis pass: pre-order over strict descendants, assigning
`auto_<n>` to every element node satisfying `q` whose guard does not block,
threading the counter. -/
def passE (q : Elem → Bool) : Elem → Nat → Elem × Nat
  | .txt s, n => (.txt s, n)
  | .el t a cs, n =>
      let (cs', n') := passL q cs n
      (.el t a cs', n')

def passL (q : Elem → Bool) : ElemList → Nat → ElemList × Nat
  | .nil, n => (.nil, n)
  | .cons c cs, n =>
      let (c', n') := passTop q c n
      let (cs', n'') := passL q cs n'
      (.cons c' cs', n'')

/-- Process one descendant: possibly assign to the node itself, then recurse
into its children (pre-order). -/
def passTop (q : Elem → Bool) : Elem → Nat → Elem × Nat
  | .txt s, n => (.txt s, n)
  | .el t a cs, n =>
      let (a', n') :=
        if q (.el t a cs) && !autoKeyBlocked a then
          (setA a "data-annot-key" ("auto_" ++ toString n), n + 1)
        else (a, n)
      let (cs', n'') := passL q cs n'
      (.el t a' cs', n'')

end

/-- First pass target: a group that directly or transitively contains a
primitive shape. -/
def qualGroup (e : Elem) : Bool := isGroup e && containsShape e

/-- The key-synthesis step of `safeParseSvg`: if no group/shape descendant
carries an `id`, run the group pass (counter starting at 1); then, only if
no strict descendant carries a `data-annot-key` attribute, run the shape
pass continuing the same counter. -/
def synthKeys (e : Elem) : Elem :=
  if anyIds e then e
  else
    let r1 := passE qualGroup e 1
    if existsDescE hasKeyAttr r1.1 then r1.1
    else (passE isShape r1.1 r1.2).1

/-- The whole document transformation of `safeParseSvg` after a successful
parse: strip scripts, make the root responsive, synthesize keys, mark the
selectable elements interactive. -/
def sanitizeRoot (e : Elem) : Elem :=
  injectE (synthKeys (setRootStyle (stripE e)))

/-- The first two steps of `safeParseSvg` (script stripping and root
sizing), after which `anyIds` is consulted. -/
def prep (e : Elem) : Elem := setRootStyle (stripE e)

/-- The result of the first synthesis pass of `safeParseSvg` over the
prepared document (counter starting at `1`). -/
def firstPass (e : Elem) : Elem × Nat := passE qualGroup (prep e) 1

/-! ### Basic attribute lemmas -/

theorem getA_setA_self (a : List (String × String)) (n v : String) :
    getA (setA a n v) n = some v := by
  induction a with
  | nil => simp [setA, getA]
  | cons kv rest ih =>
      by_cases h : kv.1 = n
      · simp [setA, getA, h]
      · simp [setA, getA, h, ih]

theorem getA_setA_ne (a : List (String × String)) (n m v : String)
    (hnm : m ≠ n) : getA (setA a m v) n = getA a n := by
  induction a with
  | nil => simp [setA, getA, hnm]
  | cons kv rest ih =>
      by_cases h : kv.1 = m
      · simp [setA, getA, h, hnm, Ne.symm hnm]
      · by_cases h2 : kv.1 = n
        · simp [setA, getA, h, h2, Ne.symm hnm]
        · simp [setA, getA, h, h2, ih]

theorem listIsEmpty_append {α : Type} (l1 l2 : List α) :
    (l1 ++ l2).isEmpty = (l1.isEmpty && l2.isEmpty) := by
  cases l1 <;> simp [List.isEmpty]

/-! ### Node-local observations and their transfer lemmas

Every CSS selector used by the program tests only an element's tag and its
attributes.  `chunksL f cs` collects `f tag attrs` over all element nodes of
a forest in document order; all counting/key-set observations and all
selector matches are expressed through it, and one transfer lemma per tree
transformation then serves every observation at once. -/

/-- A predicate on an element node's tag and attributes. -/
def nodeP (np : String → List (String × String) → Bool) (e : Elem) : Bool :=
  np (tagOf e) (attrsOf e)

mutual

def chunksE {α : Type} (f : String → List (String × String) → List α) :
    Elem → List α
  | .txt _ => []
  | .el t a cs => f t a ++ chunksL f cs

def chunksL {α : Type} (f : String → List (String × String) → List α) :
    ElemList → List α
  | .nil => []
  | .cons c cs => chunksE f c ++ chunksL f cs

end

/-- `injectL` changes only `style` attributes, so any observation blind to
`style` updates is preserved. -/
theorem chunksL_injectL {α : Type} (f : String → List (String × String) → List α)
    (h : ∀ t a v, f t (setA a "style" v) = f t a) :
    ∀ cs : ElemList, chunksL f (injectL cs) = chunksL f cs
  | .nil => by simp [injectL, chunksL]
  | .cons (.txt s) cs => by
      simp [injectL, chunksL, chunksE, chunksL_injectL f h cs]
  | .cons (.el t a cs0) cs => by
      by_cases hs : isSelectable (.el t a cs0)
      · simp [injectL, chunksL, chunksE, hs, addInteract, h,
          chunksL_injectL f h cs0, chunksL_injectL f h cs]
      · simp [injectL, chunksL, chunksE, hs,
          chunksL_injectL f h cs0, chunksL_injectL f h cs]

mutual

/-- `passL`/`passTop` change only `data-annot-key` attributes, so any
observation blind to `data-annot-key` updates is preserved. -/
theorem chunksL_passL {α : Type} (f : String → List (String × String) → List α)
    (h : ∀ t a v, f t (setA a "data-annot-key" v) = f t a) (q : Elem → Bool) :
    ∀ (cs : ElemList) (n : Nat), chunksL f (passL q cs n).1 = chunksL f cs
  | .nil, n => by simp [passL, chunksL]
  | .cons c cs, n => by
      simp only [passL, chunksL]
      rw [chunksL_passL f h q cs (passTop q c n).2]
      rw [chunksE_passTop f h q c n]

theorem chunksE_passTop {α : Type} (f : String → List (String × String) → List α)
    (h : ∀ t a v, f t (setA a "data-annot-key" v) = f t a) (q : Elem → Bool) :
    ∀ (c : Elem) (n : Nat), chunksE f (passTop q c n).1 = chunksE f c
  | .txt s, n => by simp [passTop, chunksE]
  | .el t a cs, n => by
      by_cases hq : q (.el t a cs) && !autoKeyBlocked a
      · simp only [passTop, hq, if_pos, chunksE]
        rw [h, chunksL_passL f h q cs]
      · simp only [passTop, hq, if_neg, chunksE]
        simp only [Bool.false_eq_true, if_false, chunksE]
        rw [chunksL_passL f h q cs]

end

/-- The unit-chunk encoding of a node predicate. -/
def unitF (np : String → List (String × String) → Bool) :
    String → List (String × String) → List Unit :=
  fun t a => if np t a then [()] else []

mutual

theorem existsDescE_chunks (np : String → List (String × String) → Bool) :
    ∀ e : Elem, existsDescE (nodeP np) e = !(chunksL (unitF np) (childrenOf e)).isEmpty
  | .txt _ => by simp [existsDescE, childrenOf, chunksL]
  | .el t a cs => by
      simp only [existsDescE, childrenOf]
      exact existsDescL_chunks np cs

theorem existsDescL_chunks (np : String → List (String × String) → Bool) :
    ∀ cs : ElemList, existsDescL (nodeP np) cs = !(chunksL (unitF np) cs).isEmpty
  | .nil => by simp [existsDescL, chunksL]
  | .cons (.txt s) cs => by
      simp [existsDescL, chunksL, chunksE, isElNode, existsDescL_chunks np cs]
  | .cons (.el t a cs0) cs => by
      by_cases hp : np t a
      · simp [existsDescL, chunksL, chunksE, isElNode, nodeP, tagOf, attrsOf,
          hp, unitF]
      · simp only [existsDescL, chunksL, chunksE, isElNode, nodeP, tagOf,
          attrsOf, hp, unitF, if_neg, Bool.false_eq_true, Bool.true_and,
          Bool.false_or, List.nil_append]
        rw [existsDescE_chunks np (.el t a cs0), existsDescL_chunks np cs]
        simp [childrenOf, listIsEmpty_append]

end

mutual

theorem allDescE_chunks (np : String → List (String × String) → Bool) :
    ∀ e : Elem,
      allDescE (nodeP np) e
        = (chunksL (unitF fun t a => !np t a) (childrenOf e)).isEmpty
  | .txt _ => by simp [allDescE, childrenOf, chunksL]
  | .el t a cs => by
      simp only [allDescE, childrenOf]
      exact allDescL_chunks np cs

theorem allDescL_chunks (np : String → List (String × String) → Bool) :
    ∀ cs : ElemList,
      allDescL (nodeP np) cs = (chunksL (unitF fun t a => !np t a) cs).isEmpty
  | .nil => by simp [allDescL, chunksL]
  | .cons (.txt s) cs => by
      simp [allDescL, chunksL, chunksE, isElNode, allDescL_chunks np cs]
  | .cons (.el t a cs0) cs => by
      by_cases hp : np t a
      · simp only [allDescL, chunksL, chunksE, isElNode, nodeP, tagOf,
          attrsOf, hp, unitF, Bool.not_true, if_neg, Bool.true_and,
          Bool.not_false, if_pos, List.nil_append, Bool.false_eq_true,
          not_false_eq_true]
        rw [allDescE_chunks np (.el t a cs0), allDescL_chunks np cs]
        simp [childrenOf, listIsEmpty_append]
      · simp [allDescL, chunksL, chunksE, isElNode, nodeP, tagOf, attrsOf,
          hp, unitF, List.isEmpty]

end

mutual

theorem allDescE_mono (p q : Elem → Bool) (h : ∀ x, p x = true → q x = true) :
    ∀ e : Elem, allDescE p e = true → allDescE q e = true
  | .txt _ => by simp [allDescE]
  | .el t a cs => by
      simp only [allDescE]
      exact allDescL_mono p q h cs

theorem allDescL_mono (p q : Elem → Bool) (h : ∀ x, p x = true → q x = true) :
    ∀ cs : ElemList, allDescL p cs = true → allDescL q cs = true
  | .nil => by simp [allDescL]
  | .cons c cs => by
      simp only [allDescL, Bool.and_eq_true, Bool.or_eq_true,
        Bool.not_eq_true']
      rintro ⟨h1, h2⟩
      refine ⟨?_, allDescL_mono p q h cs h2⟩
      rcases h1 with h1 | ⟨hp, hd⟩
      · exact Or.inl h1
      · exact Or.inr ⟨h c hp, allDescE_mono p q h c hd⟩

end

mutual

theorem existsDescE_mono (p q : Elem → Bool) (h : ∀ x, p x = true → q x = true) :
    ∀ e : Elem, existsDescE p e = true → existsDescE q e = true
  | .txt _ => by simp [existsDescE]
  | .el t a cs => by
      simp only [existsDescE]
      exact existsDescL_mono p q h cs

theorem existsDescL_mono (p q : Elem → Bool) (h : ∀ x, p x = true → q x = true) :
    ∀ cs : ElemList, existsDescL p cs = true → existsDescL q cs = true
  | .nil => by simp [existsDescL]
  | .cons c cs => by
      simp only [existsDescL, Bool.or_eq_true, Bool.and_eq_true]
      rintro (⟨he, hp | hd⟩ | ht)
      · exact Or.inl ⟨he, Or.inl (h c hp)⟩
      · exact Or.inl ⟨he, Or.inr (existsDescE_mono p q h c hd)⟩
      · exact Or.inr (existsDescL_mono p q h cs ht)

end

mutual

/-- From "some descendant satisfies `p`" and "every descendant satisfying
`p` satisfies `q`" (as a descendant-wise fact), some descendant satisfies
`q`. -/
theorem existsDescE_of_allDescE (p q : Elem → Bool) :
    ∀ e : Elem, allDescE (fun x => !p x || q x) e = true →
      existsDescE p e = true → existsDescE q e = true
  | .txt _ => by simp [existsDescE]
  | .el t a cs => by
      simp only [existsDescE, allDescE]
      exact existsDescL_of_allDescL p q cs

theorem existsDescL_of_allDescL (p q : Elem → Bool) :
    ∀ cs : ElemList, allDescL (fun x => !p x || q x) cs = true →
      existsDescL p cs = true → existsDescL q cs = true
  | .nil => by simp [existsDescL]
  | .cons c cs => by
      simp only [existsDescL, allDescL, Bool.or_eq_true, Bool.and_eq_true,
        Bool.not_eq_true']
      rintro ⟨h1, h2⟩ (⟨he, hp | hd⟩ | ht)
      · rcases h1 with h1 | ⟨hq, _⟩
        · rw [he] at h1; cases h1
        · rcases hq with hq' | hq'
          · rw [hp] at hq'; cases hq'
          · exact Or.inl ⟨he, Or.inl hq'⟩
      · rcases h1 with h1 | ⟨_, hall⟩
        · rw [he] at h1; cases h1
        · exact Or.inl ⟨he, Or.inr (existsDescE_of_allDescE p q c hall hd)⟩
      · exact Or.inr (existsDescL_of_allDescL p q cs h2 ht)

end

/-! ### Script stripping facts -/

/-- The node-local predicate of the selector `script`. -/
def scriptN (t : String) (_ : List (String × String)) : Bool := t = "script"

mutual

theorem stripE_noScript : ∀ e : Elem, existsDescE (nodeP scriptN) (stripE e) = false
  | .txt _ => by simp [stripE, existsDescE]
  | .el t a cs => by
      simp only [stripE, existsDescE]
      exact stripL_noScript cs

theorem stripL_noScript : ∀ cs : ElemList, existsDescL (nodeP scriptN) (stripL cs) = false
  | .nil => by simp [stripL, existsDescL]
  | .cons (.txt s) cs => by
      simp [stripL, tagOf, existsDescL, isElNode, stripE, stripL_noScript cs]
  | .cons (.el t a cs0) cs => by
      by_cases hsc : t = "script"
      · simp only [stripL, tagOf, hsc, if_pos]
        exact stripL_noScript cs
      · simp [stripL, tagOf, hsc, existsDescL, existsDescE, isElNode, nodeP,
          scriptN, attrsOf, stripE, stripL_noScript cs0, stripL_noScript cs]

end

mutual

theorem stripE_id_of_noScript :
    ∀ e : Elem, existsDescE (nodeP scriptN) e = false → stripE e = e
  | .txt _, _ => by simp [stripE]
  | .el t a cs, h => by
      simp only [existsDescE] at h
      simp [stripE, stripL_id_of_noScript cs h]

theorem stripL_id_of_noScript :
    ∀ cs : ElemList, existsDescL (nodeP scriptN) cs = false → stripL cs = cs
  | .nil, _ => by simp [stripL]
  | .cons (.txt s) cs, h => by
      simp only [existsDescL, isElNode, Bool.false_and, Bool.false_or] at h
      simp [stripL, tagOf, stripE, stripL_id_of_noScript cs h]
  | .cons (.el t a cs0) cs, h => by
      simp only [existsDescL, isElNode, Bool.true_and, Bool.or_eq_false_iff] at h
      obtain ⟨⟨hp, hd⟩, h2⟩ := h
      simp only [nodeP, scriptN, tagOf, attrsOf, decide_eq_false_iff_not] at hp
      simp only [existsDescE] at hd
      simp [stripL, tagOf, hp, stripE, stripL_id_of_noScript cs0 hd,
        stripL_id_of_noScript cs h2]

end

/-! ### Node-local forms of the selector predicates -/

def shapeN (t : String) (_ : List (String × String)) : Bool := shapeTags.contains t

def idCarrierN (t : String) (a : List (String × String)) : Bool :=
  (decide (t = "g") || shapeTags.contains t) && hasA a "id"

def keyPresN (_ : String) (a : List (String × String)) : Bool :=
  hasA a "data-annot-key"

def selN (_ : String) (a : List (String × String)) : Bool :=
  hasA a "id" || hasA a "data-annot-key"

theorem isShape_eq_nodeP : isShape = nodeP shapeN := rfl

theorem isIdCarrier_eq_nodeP : isIdCarrier = nodeP idCarrierN := rfl

theorem hasKeyAttr_eq_nodeP : hasKeyAttr = nodeP keyPresN := rfl

theorem isSelectable_eq_nodeP : isSelectable = nodeP selN := rfl

/-! ### Bridge corollaries: selector queries through the transformations -/

theorem existsDescL_nodeP_passL (np : String → List (String × String) → Bool)
    (h : ∀ t a v, np t (setA a "data-annot-key" v) = np t a)
    (q : Elem → Bool) (cs : ElemList) (n : Nat) :
    existsDescL (nodeP np) (passL q cs n).1 = existsDescL (nodeP np) cs := by
  rw [existsDescL_chunks, existsDescL_chunks,
    chunksL_passL (unitF np) (fun t a v => by rw [unitF, unitF, h]) q cs n]

theorem existsDescL_nodeP_injectL (np : String → List (String × String) → Bool)
    (h : ∀ t a v, np t (setA a "style" v) = np t a) (cs : ElemList) :
    existsDescL (nodeP np) (injectL cs) = existsDescL (nodeP np) cs := by
  rw [existsDescL_chunks, existsDescL_chunks,
    chunksL_injectL (unitF np) (fun t a v => by rw [unitF, unitF, h]) cs]

theorem allDescL_nodeP_passL (np : String → List (String × String) → Bool)
    (h : ∀ t a v, np t (setA a "data-annot-key" v) = np t a)
    (q : Elem → Bool) (cs : ElemList) (n : Nat) :
    allDescL (nodeP np) (passL q cs n).1 = allDescL (nodeP np) cs := by
  rw [allDescL_chunks, allDescL_chunks,
    chunksL_passL (unitF fun t a => !np t a)
      (fun t a v => by rw [unitF, unitF, h]) q cs n]

theorem allDescL_nodeP_injectL (np : String → List (String × String) → Bool)
    (h : ∀ t a v, np t (setA a "style" v) = np t a) (cs : ElemList) :
    allDescL (nodeP np) (injectL cs) = allDescL (nodeP np) cs := by
  rw [allDescL_chunks, allDescL_chunks,
    chunksL_injectL (unitF fun t a => !np t a)
      (fun t a v => by rw [unitF, unitF, h]) cs]

theorem existsDescE_setRootStyle (p : Elem → Bool) (e : Elem) :
    existsDescE p (setRootStyle e) = existsDescE p e := by
  cases e <;> simp [setRootStyle, existsDescE]

theorem allDescE_setRootStyle (p : Elem → Bool) (e : Elem) :
    allDescE p (setRootStyle e) = allDescE p e := by
  cases e <;> simp [setRootStyle, allDescE]

/-- `containsShape` is insensitive to key assignment (it reads only tags). -/
theorem containsShape_passL (q : Elem → Bool) (t : String)
    (a a' : List (String × String)) (cs : ElemList) (n : Nat) :
    containsShape (.el t a' (passL q cs n).1) = containsShape (.el t a cs) := by
  simp only [containsShape, isShape_eq_nodeP, existsDescE]
  exact existsDescL_nodeP_passL shapeN (fun _ _ _ => rfl) q cs n

/-- `containsShape` is insensitive to style injection. -/
theorem containsShape_injectL (t : String) (a a' : List (String × String))
    (cs : ElemList) :
    containsShape (.el t a' (injectL cs)) = containsShape (.el t a cs) := by
  simp only [containsShape, isShape_eq_nodeP, existsDescE]
  exact existsDescL_nodeP_injectL shapeN (fun _ _ _ => rfl) cs

/-! ### The synthesis pass assigns nothing when every target is blocked -/

mutual

theorem passTop_id_of_blocked (q : Elem → Bool) :
    ∀ (c : Elem) (n : Nat),
      (q c = false ∨ autoKeyBlocked (attrsOf c) = true) →
      allDescE (fun x => !q x || autoKeyBlocked (attrsOf x)) c = true →
      passTop q c n = (c, n)
  | .txt s, n, _, _ => by simp [passTop]
  | .el t a cs, n, hn, hall => by
      have hq : (q (.el t a cs) && !autoKeyBlocked a) = false := by
        rcases hn with hn | hn
        · simp [hn]
        · simp [attrsOf] at hn
          simp [hn]
      simp only [allDescE] at hall
      simp [passTop, hq, passL_id_of_blocked q cs n hall]

theorem passL_id_of_blocked (q : Elem → Bool) :
    ∀ (cs : ElemList) (n : Nat),
      allDescL (fun x => !q x || autoKeyBlocked (attrsOf x)) cs = true →
      passL q cs n = (cs, n)
  | .nil, n, _ => by simp [passL]
  | .cons c cs, n, hall => by
      simp only [allDescL, Bool.and_eq_true] at hall
      obtain ⟨h1, h2⟩ := hall
      have hc : passTop q c n = (c, n) := by
        cases c with
        | txt s => simp [passTop]
        | el t' a' cs' =>
            simp only [isElNode, Bool.not_true, Bool.false_or,
              Bool.and_eq_true] at h1
            obtain ⟨hp, hd⟩ := h1
            rw [Bool.or_eq_true, Bool.not_eq_true'] at hp
            exact passTop_id_of_blocked q _ n hp hd
      simp [passL, hc, passL_id_of_blocked q cs n h2]

end

theorem passE_id_of_blocked (q : Elem → Bool) (e : Elem) (n : Nat)
    (hall : allDescE (fun x => !q x || autoKeyBlocked (attrsOf x)) e = true) :
    passE q e n = (e, n) := by
  cases e with
  | txt s => simp [passE]
  | el t a cs =>
      simp only [allDescE] at hall
      simp [passE, passL_id_of_blocked q cs n hall]

/-! ### After the passes, every target element carries a truthy key -/

theorem hasA_setA_ne (a : List (String × String)) (n m v : String) (h : m ≠ n) :
    hasA (setA a m v) n = hasA a n := by
  simp [hasA, getA_setA_ne a n m v h]

theorem truthyA_setA_ne (a : List (String × String)) (n m v : String) (h : m ≠ n) :
    truthyA (setA a m v) n = truthyA a n := by
  simp [truthyA, getA_setA_ne a n m v h]

theorem truthyA_hasA (a : List (String × String)) (n : String)
    (h : truthyA a n = true) : hasA a n = true := by
  simp only [truthyA] at h
  simp only [hasA]
  cases hg : getA a n with
  | none => rw [hg] at h; cases h
  | some v => simp

theorem auto_key_ne_empty (n : Nat) : ("auto_" ++ toString n) ≠ "" := by
  intro h
  have hl := congrArg String.length h
  simp [String.length_append] at hl
  exact absurd hl.1 (by decide)

/-- The first-pass invariant: a group that contains a shape carries a
truthy synthesized key (written so that the group/shape structure enters
only through the tag skeleton). -/
def groupKeyed (x : Elem) : Bool :=
  (!isGroup x || truthyA (attrsOf x) "data-annot-key") || !containsShape x

/-- The second-pass invariant: a shape carries a truthy synthesized key. -/
def shapeKeyed (x : Elem) : Bool :=
  !isShape x || truthyA (attrsOf x) "data-annot-key"

mutual

theorem passTop_group_keyed :
    ∀ (c : Elem) (n : Nat),
      isIdCarrier c = false →
      existsDescE isIdCarrier c = false →
      groupKeyed (passTop qualGroup c n).1 = true ∧
        allDescE groupKeyed (passTop qualGroup c n).1 = true
  | .txt s, n, _, _ => by
      simp [passTop, groupKeyed, isGroup, tagOf, allDescE]
  | .el t a cs0, n, hid, hdesc => by
      simp only [existsDescE] at hdesc
      by_cases hcond : qualGroup (.el t a cs0) && !autoKeyBlocked a
      · simp only [passTop, hcond, if_pos]
        constructor
        · simp [groupKeyed, truthyA_setA_ne, attrsOf, truthyA, getA_setA_self,
            auto_key_ne_empty]
        · simp only [allDescE]
          exact passL_group_keyed cs0 (n + 1) hdesc
      · simp only [passTop, hcond, Bool.false_eq_true, if_neg,
          not_false_eq_true]
        constructor
        · simp only [groupKeyed, attrsOf,
            containsShape_passL qualGroup t a a cs0 n]
          simp only [qualGroup, Bool.and_eq_true, not_and,
            Bool.not_eq_true] at hcond
          by_cases hg : isGroup (.el t a cs0)
          · by_cases hsh : containsShape (.el t a cs0)
            · have hb : autoKeyBlocked a = true := by
                have := hcond (by simp [qualGroup, hg, hsh])
                simpa using this
              simp only [autoKeyBlocked, Bool.or_eq_true] at hb
              rcases hb with hb | hb
              · exfalso
                have : isIdCarrier (.el t a cs0) = true := by
                  simp [isIdCarrier, hg, attrsOf, truthyA_hasA a "id" hb]
                rw [this] at hid; cases hid
              · simp [hg, hsh, hb]
            · simp [hsh]
          · have hgf : isGroup (Elem.el t a (passL qualGroup cs0 n).1) = false := by
              simp only [isGroup, tagOf] at hg ⊢
              exact Bool.eq_false_iff.mpr hg
            simp [hgf]
        · simp only [allDescE]
          exact passL_group_keyed cs0 n hdesc

theorem passL_group_keyed :
    ∀ (cs : ElemList) (n : Nat),
      existsDescL isIdCarrier cs = false →
      allDescL groupKeyed (passL qualGroup cs n).1 = true
  | .nil, n, _ => by simp [passL, allDescL]
  | .cons c cs, n, h => by
      simp only [existsDescL, Bool.or_eq_false_iff, Bool.and_eq_false_iff] at h
      obtain ⟨h1, h2⟩ := h
      have hn : isIdCarrier c = false ∧ existsDescE isIdCarrier c = false := by
        cases c with
        | txt s => exact ⟨rfl, rfl⟩
        | el t' a' cs' =>
            rcases h1 with h1 | h1
            · simp [isElNode] at h1
            · exact h1
      obtain ⟨hkc, hka⟩ := passTop_group_keyed c n hn.1 hn.2
      simp only [passL, allDescL, Bool.and_eq_true, Bool.or_eq_true]
      exact ⟨Or.inr ⟨hkc, hka⟩,
        passL_group_keyed cs (passTop qualGroup c n).2 h2⟩

end

mutual

theorem passTop_shape_keyed :
    ∀ (c : Elem) (n : Nat),
      isIdCarrier c = false →
      existsDescE isIdCarrier c = false →
      hasKeyAttr c = false →
      existsDescE hasKeyAttr c = false →
      shapeKeyed (passTop isShape c n).1 = true ∧
        allDescE shapeKeyed (passTop isShape c n).1 = true
  | .txt s, n, _, _, _, _ => by
      simp [passTop, shapeKeyed, isShape, tagOf, shapeTags, allDescE]
  | .el t a cs0, n, hid, hdesc, hkey, hkdesc => by
      simp only [existsDescE] at hdesc hkdesc
      by_cases hcond : isShape (.el t a cs0) && !autoKeyBlocked a
      · simp only [passTop, hcond, if_pos]
        constructor
        · simp [shapeKeyed, attrsOf, truthyA, getA_setA_self,
            auto_key_ne_empty]
        · simp only [allDescE]
          exact passL_shape_keyed cs0 (n + 1) hdesc hkdesc
      · simp only [passTop, hcond, Bool.false_eq_true, if_neg,
          not_false_eq_true]
        constructor
        · simp only [shapeKeyed, attrsOf]
          by_cases hsh : isShape (.el t a cs0)
          · exfalso
            simp only [hsh, Bool.true_and, Bool.not_eq_true'] at hcond
            rw [Bool.not_eq_false] at hcond
            simp only [autoKeyBlocked, Bool.or_eq_true] at hcond
            rcases hcond with hb | hb
            · have hidc : isIdCarrier (.el t a cs0) = true := by
                unfold isIdCarrier
                rw [Bool.and_eq_true, Bool.or_eq_true]
                exact ⟨Or.inr hsh, truthyA_hasA a "id" hb⟩
              rw [hidc] at hid; cases hid
            · have : hasKeyAttr (.el t a cs0) = true := by
                simp [hasKeyAttr, attrsOf, truthyA_hasA a "data-annot-key" hb]
              rw [this] at hkey; cases hkey
          · have hsf : isShape (Elem.el t a (passL isShape cs0 n).1) = false := by
              simp only [isShape, tagOf] at hsh ⊢
              exact Bool.eq_false_iff.mpr hsh
            simp [hsf]
        · simp only [allDescE]
          exact passL_shape_keyed cs0 n hdesc hkdesc

theorem passL_shape_keyed :
    ∀ (cs : ElemList) (n : Nat),
      existsDescL isIdCarrier cs = false →
      existsDescL hasKeyAttr cs = false →
      allDescL shapeKeyed (passL isShape cs n).1 = true
  | .nil, n, _, _ => by simp [passL, allDescL]
  | .cons c cs, n, h, hk => by
      simp only [existsDescL, Bool.or_eq_false_iff, Bool.and_eq_false_iff] at h hk
      obtain ⟨h1, h2⟩ := h
      obtain ⟨hk1, hk2⟩ := hk
      have hn : isIdCarrier c = false ∧ existsDescE isIdCarrier c = false := by
        cases c with
        | txt s => exact ⟨rfl, rfl⟩
        | el t' a' cs' =>
            rcases h1 with h1 | h1
            · simp [isElNode] at h1
            · exact h1
      have hkn : hasKeyAttr c = false ∧ existsDescE hasKeyAttr c = false := by
        cases c with
        | txt s => exact ⟨rfl, rfl⟩
        | el t' a' cs' =>
            rcases hk1 with hk1 | hk1
            · simp [isElNode] at hk1
            · exact hk1
      obtain ⟨hkc, hka⟩ := passTop_shape_keyed c n hn.1 hn.2 hkn.1 hkn.2
      simp only [passL, allDescL, Bool.and_eq_true, Bool.or_eq_true]
      exact ⟨Or.inr ⟨hkc, hka⟩,
        passL_shape_keyed cs (passTop isShape c n).2 h2 hk2⟩

end

/-- Style injection does not disturb the first-pass invariant. -/
theorem allDescL_groupKeyed_injectL :
    ∀ cs : ElemList, allDescL groupKeyed (injectL cs) = allDescL groupKeyed cs
  | .nil => by simp [injectL, allDescL]
  | .cons (.txt s) cs => by
      simp [injectL, allDescL, isElNode, allDescL_groupKeyed_injectL cs]
  | .cons (.el t a cs0) cs => by
      have hgk : ∀ a' : List (String × String),
          truthyA a' "data-annot-key" = truthyA a "data-annot-key" →
          groupKeyed (.el t a' (injectL cs0)) = groupKeyed (.el t a cs0) := by
        intro a' hta
        simp only [groupKeyed, attrsOf, isGroup, tagOf, hta,
          containsShape_injectL t a a' cs0]
      by_cases hs : isSelectable (.el t a cs0)
      · simp only [injectL, hs, if_pos, allDescL, isElNode, Bool.not_true,
          Bool.false_or, allDescE]
        rw [hgk (addInteract a)
          (truthyA_setA_ne a "data-annot-key" "style" _ (by decide)),
          allDescL_groupKeyed_injectL cs0, allDescL_groupKeyed_injectL cs]
      · simp only [injectL, hs, Bool.false_eq_true, if_neg, not_false_eq_true,
          allDescL, isElNode, Bool.not_true, Bool.false_or, allDescE]
        rw [hgk a rfl, allDescL_groupKeyed_injectL cs0,
          allDescL_groupKeyed_injectL cs]

theorem allDescE_groupKeyed_injectE (e : Elem) :
    allDescE groupKeyed (injectE e) = allDescE groupKeyed e := by
  cases e with
  | txt s => simp [injectE]
  | el t a cs =>
      simp only [injectE, allDescE]
      exact allDescL_groupKeyed_injectL cs

theorem g_not_shape : shapeTags.contains "g" = false := by decide

theorem isElNode_passTop (q : Elem → Bool) (c : Elem) (n : Nat) :
    isElNode (passTop q c n).1 = isElNode c := by
  cases c with
  | txt s => simp [passTop]
  | el t a cs =>
      by_cases hcond : q (.el t a cs) && !autoKeyBlocked a
      · simp [passTop, hcond, isElNode]
      · simp [passTop, hcond, isElNode]

mutual

/-- The shape pass does not disturb the first-pass invariant: it assigns
keys only to shape elements, which are never groups. -/
theorem passTop_groupKeyed_shape :
    ∀ (c : Elem) (n : Nat),
      groupKeyed (passTop isShape c n).1 = groupKeyed c ∧
        allDescE groupKeyed (passTop isShape c n).1 = allDescE groupKeyed c
  | .txt s, n => by simp [passTop]
  | .el t a cs0, n => by
      by_cases hcond : isShape (.el t a cs0) && !autoKeyBlocked a
      · have hsh : shapeTags.contains t = true := by
          rw [Bool.and_eq_true] at hcond
          simpa [isShape, tagOf] using hcond.1
        have hng' : ∀ (a' : List (String × String)) (cs' : ElemList),
            isGroup (Elem.el t a' cs') = false := by
          intro a' cs'
          simp only [isGroup, tagOf]
          by_cases hg : t = "g"
          · rw [hg] at hsh; rw [g_not_shape] at hsh; cases hsh
          · simp [hg]
        simp only [passTop, hcond, if_pos]
        constructor
        · simp [groupKeyed, hng']
        · simp only [allDescE]
          exact passL_groupKeyed_shape cs0 (n + 1)
      · simp only [passTop, hcond, Bool.false_eq_true, if_neg,
          not_false_eq_true]
        constructor
        · simp only [groupKeyed, attrsOf, isGroup, tagOf,
            containsShape_passL isShape t a a cs0 n]
        · simp only [allDescE]
          exact passL_groupKeyed_shape cs0 n

theorem passL_groupKeyed_shape :
    ∀ (cs : ElemList) (n : Nat),
      allDescL groupKeyed (passL isShape cs n).1 = allDescL groupKeyed cs
  | .nil, n => by simp [passL]
  | .cons c cs, n => by
      obtain ⟨h1, h2⟩ := passTop_groupKeyed_shape c n
      simp only [passL, allDescL]
      rw [isElNode_passTop, h1, h2,
        passL_groupKeyed_shape cs (passTop isShape c n).2]

end

/-! ### Document observations

`getElementKey` is `el.getAttribute("id") || el.getAttribute("data-annot-key")
|| null` (JavaScript `||`: an empty string falls through). -/

def keyOfAttrs (a : List (String × String)) : Option String :=
  if truthyA a "id" then getA a "id"
  else if truthyA a "data-annot-key" then getA a "data-annot-key"
  else none

def getElementKey (e : Elem) : Option String := keyOfAttrs (attrsOf e)

/-- The `data-annot-key` value of every strict descendant, in document
order (`none` = attribute absent). -/
def keyValF (_ : String) (a : List (String × String)) : List (Option String) :=
  [getA a "data-annot-key"]

def keyVals (e : Elem) : List (Option String) :=
  chunksL keyValF (childrenOf e)

/-- The identity key of every selectable strict descendant
(`querySelectorAll("[id], [data-annot-key]")` then `getElementKey`), in
document order. -/
def selKeyF (_ : String) (a : List (String × String)) : List (Option String) :=
  if hasA a "id" || hasA a "data-annot-key" then [keyOfAttrs a] else []

def selKeys (e : Elem) : List (Option String) :=
  chunksL selKeyF (childrenOf e)

/-- `querySelectorAll("[id], [data-annot-key]").length` — the number of
interactive (selectable) elements. -/
def interCount (e : Elem) : Nat :=
  (chunksL (unitF selN) (childrenOf e)).length

theorem keyValF_style_blind (t : String) (a : List (String × String)) (v : String) :
    keyValF t (setA a "style" v) = keyValF t a := by
  simp [keyValF, getA_setA_ne a "data-annot-key" "style" v (by decide)]

theorem selKeyF_style_blind (t : String) (a : List (String × String)) (v : String) :
    selKeyF t (setA a "style" v) = selKeyF t a := by
  simp [selKeyF, keyOfAttrs,
    hasA_setA_ne a "id" "style" v (by decide),
    hasA_setA_ne a "data-annot-key" "style" v (by decide),
    truthyA_setA_ne a "id" "style" v (by decide),
    truthyA_setA_ne a "data-annot-key" "style" v (by decide),
    getA_setA_ne a "id" "style" v (by decide),
    getA_setA_ne a "data-annot-key" "style" v (by decide)]

theorem selN_style_blind (t : String) (a : List (String × String)) (v : String) :
    selN t (setA a "style" v) = selN t a := by
  simp [selN, hasA_setA_ne a "id" "style" v (by decide),
    hasA_setA_ne a "data-annot-key" "style" v (by decide)]

theorem childrenOf_injectE (e : Elem) :
    childrenOf (injectE e) = injectL (childrenOf e) := by
  cases e <;> simp [injectE, childrenOf, injectL]

theorem childrenOf_setRootStyle (e : Elem) :
    childrenOf (setRootStyle e) = childrenOf e := by
  cases e <;> simp [setRootStyle, childrenOf]

theorem keyVals_injectE (e : Elem) : keyVals (injectE e) = keyVals e := by
  simp only [keyVals, childrenOf_injectE]
  exact chunksL_injectL keyValF keyValF_style_blind (childrenOf e)

theorem keyVals_setRootStyle (e : Elem) :
    keyVals (setRootStyle e) = keyVals e := by
  simp only [keyVals, childrenOf_setRootStyle]

theorem selKeys_injectE (e : Elem) : selKeys (injectE e) = selKeys e := by
  simp only [selKeys, childrenOf_injectE]
  exact chunksL_injectL selKeyF selKeyF_style_blind (childrenOf e)

theorem selKeys_setRootStyle (e : Elem) :
    selKeys (setRootStyle e) = selKeys e := by
  simp only [selKeys, childrenOf_setRootStyle]

theorem interCount_injectE (e : Elem) : interCount (injectE e) = interCount e := by
  simp only [interCount, childrenOf_injectE]
  rw [chunksL_injectL (unitF selN)
    (fun t a v => by rw [unitF, unitF, selN_style_blind]) (childrenOf e)]

theorem interCount_setRootStyle (e : Elem) :
    interCount (setRootStyle e) = interCount e := by
  simp only [interCount, childrenOf_setRootStyle]

/-! ### Whole-document corollaries for the synthesis step -/

theorem anyIds_firstPass (e : Elem) : anyIds (firstPass e).1 = anyIds (prep e) := by
  cases h : prep e with
  | txt s => simp [firstPass, h, passE, anyIds, existsDescE]
  | el t a cs =>
      simp only [firstPass, h, passE, anyIds, existsDescE,
        isIdCarrier_eq_nodeP]
      exact existsDescL_nodeP_passL idCarrierN
        (fun t' a' v => by
          simp [idCarrierN, hasA_setA_ne a' "id" "data-annot-key" v (by decide)])
        qualGroup cs 1

theorem passE_group_keyed (e : Elem) (n : Nat) (h : anyIds e = false) :
    allDescE groupKeyed (passE qualGroup e n).1 = true := by
  cases e with
  | txt s => simp [passE, allDescE]
  | el t a cs =>
      simp only [anyIds, existsDescE] at h
      simp only [passE, allDescE]
      exact passL_group_keyed cs n h

theorem passE_shape_keyed (e : Elem) (n : Nat) (hid : anyIds e = false)
    (hkey : existsDescE hasKeyAttr e = false) :
    allDescE shapeKeyed (passE isShape e n).1 = true := by
  cases e with
  | txt s => simp [passE, allDescE]
  | el t a cs =>
      simp only [anyIds, existsDescE] at hid hkey
      simp only [passE, allDescE]
      exact passL_shape_keyed cs n hid hkey

theorem allDescE_groupKeyed_passE_shape (e : Elem) (n : Nat) :
    allDescE groupKeyed (passE isShape e n).1
      = allDescE groupKeyed e := by
  cases e with
  | txt s => simp [passE]
  | el t a cs =>
      simp only [passE, allDescE]
      exact passL_groupKeyed_shape cs n

theorem shapeKeyed_eq_nodeP :
    shapeKeyed = nodeP fun t a => !shapeN t a || truthyA a "data-annot-key" := rfl

theorem allDescE_shapeKeyed_injectE (e : Elem) :
    allDescE shapeKeyed (injectE e) = allDescE shapeKeyed e := by
  cases e with
  | txt s => simp [injectE]
  | el t a cs =>
      simp only [injectE, allDescE, shapeKeyed_eq_nodeP]
      exact allDescL_nodeP_injectL _
        (fun t' a' v => by
          simp [shapeN, truthyA_setA_ne a' "data-annot-key" "style" v (by decide)])
        cs

/-! ### Whole-tree transfer wrappers and second-run analysis -/

theorem chunksL_congr {α : Type} (f g : String → List (String × String) → List α)
    (h : ∀ t a, f t a = g t a) : ∀ cs : ElemList, chunksL f cs = chunksL g cs
  | .nil => by simp [chunksL]
  | .cons (.txt s) cs => by
      simp [chunksL, chunksE, chunksL_congr f g h cs]
  | .cons (.el t a cs0) cs => by
      simp [chunksL, chunksE, h, chunksL_congr f g h cs0,
        chunksL_congr f g h cs]

theorem existsDescE_nodeP_passE (np : String → List (String × String) → Bool)
    (h : ∀ t a v, np t (setA a "data-annot-key" v) = np t a)
    (q : Elem → Bool) (e : Elem) (n : Nat) :
    existsDescE (nodeP np) (passE q e n).1 = existsDescE (nodeP np) e := by
  cases e with
  | txt s => simp [passE]
  | el t a cs =>
      simp only [passE, existsDescE]
      exact existsDescL_nodeP_passL np h q cs n

theorem existsDescE_nodeP_injectE (np : String → List (String × String) → Bool)
    (h : ∀ t a v, np t (setA a "style" v) = np t a) (e : Elem) :
    existsDescE (nodeP np) (injectE e) = existsDescE (nodeP np) e := by
  cases e with
  | txt s => simp [injectE]
  | el t a cs =>
      simp only [injectE, existsDescE]
      exact existsDescL_nodeP_injectL np h cs

theorem existsDescE_nodeP_synthKeys (np : String → List (String × String) → Bool)
    (h : ∀ t a v, np t (setA a "data-annot-key" v) = np t a) (e : Elem) :
    existsDescE (nodeP np) (synthKeys e) = existsDescE (nodeP np) e := by
  rw [synthKeys]
  by_cases ha : anyIds e
  · simp [ha]
  · simp only [ha, Bool.false_eq_true, if_neg, not_false_eq_true]
    by_cases hk : existsDescE hasKeyAttr (passE qualGroup e 1).1
    · simp only [hk, if_pos]
      exact existsDescE_nodeP_passE np h qualGroup e 1
    · simp only [hk, Bool.false_eq_true, if_neg, not_false_eq_true]
      rw [existsDescE_nodeP_passE np h isShape _ _,
        existsDescE_nodeP_passE np h qualGroup e 1]

/-- A sanitized document contains no script element. -/
theorem noScript_sanitizeRoot (e : Elem) :
    existsDescE (nodeP scriptN) (sanitizeRoot e) = false := by
  show existsDescE (nodeP scriptN) (injectE (synthKeys (prep e))) = false
  rw [existsDescE_nodeP_injectE scriptN (fun _ _ _ => rfl),
    existsDescE_nodeP_synthKeys scriptN (fun _ _ _ => rfl),
    prep, existsDescE_setRootStyle]
  exact stripE_noScript e

/-- Sanitation does not change which group/shape elements carry an `id`. -/
theorem anyIds_sanitizeRoot (e : Elem) :
    anyIds (sanitizeRoot e) = anyIds (prep e) := by
  show anyIds (injectE (synthKeys (prep e))) = anyIds (prep e)
  have hid : ∀ t (a : List (String × String)) v,
      idCarrierN t (setA a "data-annot-key" v) = idCarrierN t a := by
    intro t a v
    simp [idCarrierN, hasA_setA_ne a "id" "data-annot-key" v (by decide)]
  have hid2 : ∀ t (a : List (String × String)) v,
      idCarrierN t (setA a "style" v) = idCarrierN t a := by
    intro t a v
    simp [idCarrierN, hasA_setA_ne a "id" "style" v (by decide)]
  simp only [anyIds, isIdCarrier_eq_nodeP]
  rw [existsDescE_nodeP_injectE idCarrierN hid2,
    existsDescE_nodeP_synthKeys idCarrierN hid]

/-- Sanitation does not change which elements are shapes. -/
theorem existsShape_sanitizeRoot (e : Elem) :
    existsDescE (nodeP shapeN) (sanitizeRoot e)
      = existsDescE (nodeP shapeN) (prep e) := by
  show existsDescE (nodeP shapeN) (injectE (synthKeys (prep e))) = _
  rw [existsDescE_nodeP_injectE shapeN (fun _ _ _ => rfl),
    existsDescE_nodeP_synthKeys shapeN (fun _ _ _ => rfl)]

/-- Style injection does not change key-attribute presence. -/
theorem existsHasKey_injectE (e : Elem) :
    existsDescE hasKeyAttr (injectE e) = existsDescE hasKeyAttr e := by
  simp only [hasKeyAttr_eq_nodeP]
  exact existsDescE_nodeP_injectE keyPresN
    (fun t a v => by
      simp [keyPresN, hasA_setA_ne a "data-annot-key" "style" v (by decide)]) e

/-- In the no-ids branch, the sanitized output keys every group that
contains a shape. -/
theorem allDescE_groupKeyed_sanitizeRoot (e : Elem)
    (hf : anyIds (prep e) = false) :
    allDescE groupKeyed (sanitizeRoot e) = true := by
  show allDescE groupKeyed (injectE (synthKeys (prep e))) = true
  rw [allDescE_groupKeyed_injectE]
  rw [synthKeys]
  simp only [hf, Bool.false_eq_true, if_neg, not_false_eq_true]
  by_cases hk : existsDescE hasKeyAttr (passE qualGroup (prep e) 1).1
  · simp only [hk, if_pos]
    exact passE_group_keyed (prep e) 1 hf
  · simp only [hk, Bool.false_eq_true, if_neg, not_false_eq_true]
    rw [allDescE_groupKeyed_passE_shape]
    exact passE_group_keyed (prep e) 1 hf

theorem groupKeyed_implies_blocked (x : Elem) (h : groupKeyed x = true) :
    (!qualGroup x || autoKeyBlocked (attrsOf x)) = true := by
  simp only [groupKeyed, Bool.or_eq_true, Bool.not_eq_true'] at h
  simp only [Bool.or_eq_true, Bool.not_eq_true']
  rcases h with (h | h) | h
  · exact Or.inl (by simp [qualGroup, h])
  · exact Or.inr (by simp [autoKeyBlocked, h])
  · exact Or.inl (by simp [qualGroup, h])

theorem shapeKeyed_implies_hasKey (x : Elem) (h : shapeKeyed x = true) :
    (!isShape x || hasKeyAttr x) = true := by
  simp only [shapeKeyed, Bool.or_eq_true, Bool.not_eq_true'] at h
  simp only [Bool.or_eq_true, Bool.not_eq_true']
  rcases h with h | h
  · exact Or.inl h
  · exact Or.inr (by simp [hasKeyAttr, truthyA_hasA _ _ h])

theorem allDescE_not_of_exists_false (np : String → List (String × String) → Bool)
    (e : Elem) (h : existsDescE (nodeP np) e = false) :
    allDescE (nodeP fun t a => !np t a) e = true := by
  rw [allDescE_chunks]
  rw [existsDescE_chunks] at h
  simp only [Bool.not_eq_false'] at h
  rw [chunksL_congr (unitF fun t a => !(!np t a)) (unitF np)
    (fun t a => by simp [unitF])]
  exact h

/-- If no group/shape has an id and a shape exists, the sanitized output
carries at least one synthesized-key attribute. -/
theorem existsKey_sanitizeRoot_of_shape (e : Elem)
    (hf : anyIds (prep e) = false)
    (hs : existsDescE (nodeP shapeN) (prep e) = true) :
    existsDescE hasKeyAttr (sanitizeRoot e) = true := by
  show existsDescE hasKeyAttr (injectE (synthKeys (prep e))) = true
  rw [existsHasKey_injectE]
  rw [synthKeys]
  simp only [hf, Bool.false_eq_true, if_neg, not_false_eq_true]
  by_cases hk : existsDescE hasKeyAttr (passE qualGroup (prep e) 1).1
  · simp [hk]
  · simp only [hk, Bool.false_eq_true, if_neg, not_false_eq_true]
    have hkf : existsDescE hasKeyAttr (passE qualGroup (prep e) 1).1 = false :=
      Bool.eq_false_iff.mpr hk
    have hpost : allDescE shapeKeyed
        (passE isShape (passE qualGroup (prep e) 1).1
          (passE qualGroup (prep e) 1).2).1 = true := by
      refine passE_shape_keyed _ _ ?_ hkf
      have := anyIds_firstPass e
      rw [firstPass] at this
      rw [this]
      exact hf
    have hsh2 : existsDescE (nodeP shapeN)
        (passE isShape (passE qualGroup (prep e) 1).1
          (passE qualGroup (prep e) 1).2).1 = true := by
      rw [existsDescE_nodeP_passE shapeN (fun _ _ _ => rfl),
        existsDescE_nodeP_passE shapeN (fun _ _ _ => rfl)]
      exact hs
    have hmono : allDescE (fun x => !(nodeP shapeN) x || hasKeyAttr x)
        (passE isShape (passE qualGroup (prep e) 1).1
          (passE qualGroup (prep e) 1).2).1 = true :=
      allDescE_mono shapeKeyed _ (fun x hx => shapeKeyed_implies_hasKey x hx)
        _ hpost
    exact existsDescE_of_allDescE (nodeP shapeN) hasKeyAttr _ hmono hsh2

/-- Re-sanitizing a sanitized document performs no structural change and no
key synthesis: the second run only re-appends the root-sizing and
interactivity style fragments. -/
theorem sanitizeRoot_second (e : Elem) :
    sanitizeRoot (sanitizeRoot e) = injectE (setRootStyle (sanitizeRoot e)) := by
  have hstrip : stripE (sanitizeRoot e) = sanitizeRoot e :=
    stripE_id_of_noScript (sanitizeRoot e) (noScript_sanitizeRoot e)
  have hout : sanitizeRoot (sanitizeRoot e)
      = injectE (synthKeys (setRootStyle (sanitizeRoot e))) := by
    show injectE (synthKeys (setRootStyle (stripE (sanitizeRoot e)))) = _
    rw [hstrip]
  rw [hout]
  congr 1
  have hids : anyIds (setRootStyle (sanitizeRoot e)) = anyIds (prep e) := by
    rw [anyIds, existsDescE_setRootStyle]
    exact anyIds_sanitizeRoot e
  by_cases ha : anyIds (prep e)
  · rw [synthKeys]
    simp [hids, ha]
  · have haf : anyIds (prep e) = false := Bool.eq_false_iff.mpr ha
    have hay : anyIds (setRootStyle (sanitizeRoot e)) = false := by
      rw [hids]; exact haf
    have hgk : allDescE groupKeyed (sanitizeRoot e) = true :=
      allDescE_groupKeyed_sanitizeRoot e haf
    have hblock : allDescE (fun x => !qualGroup x || autoKeyBlocked (attrsOf x))
        (setRootStyle (sanitizeRoot e)) = true := by
      rw [allDescE_setRootStyle]
      exact allDescE_mono _ _ groupKeyed_implies_blocked _ hgk
    have hpass1 : passE qualGroup (setRootStyle (sanitizeRoot e)) 1
        = (setRootStyle (sanitizeRoot e), 1) :=
      passE_id_of_blocked _ _ _ hblock
    rw [synthKeys]
    simp only [hay, Bool.false_eq_true, if_neg, not_false_eq_true, hpass1]
    have hkey_y : existsDescE hasKeyAttr (setRootStyle (sanitizeRoot e))
        = existsDescE hasKeyAttr (sanitizeRoot e) :=
      existsDescE_setRootStyle hasKeyAttr (sanitizeRoot e)
    by_cases hk : existsDescE hasKeyAttr (sanitizeRoot e)
    · simp [hkey_y, hk]
    · have hkf : existsDescE hasKeyAttr (sanitizeRoot e) = false :=
        Bool.eq_false_iff.mpr hk
      have hshape : existsDescE (nodeP shapeN) (prep e) = false := by
        cases hsv : existsDescE (nodeP shapeN) (prep e) with
        | false => rfl
        | true =>
            have := existsKey_sanitizeRoot_of_shape e haf hsv
            rw [this] at hkf; cases hkf
      have hshape_y : existsDescE (nodeP shapeN)
          (setRootStyle (sanitizeRoot e)) = false := by
        rw [existsDescE_setRootStyle, existsShape_sanitizeRoot]
        exact hshape
      have hblock2 : allDescE (fun x => !isShape x || autoKeyBlocked (attrsOf x))
          (setRootStyle (sanitizeRoot e)) = true := by
        have hall := allDescE_not_of_exists_false shapeN
          (setRootStyle (sanitizeRoot e)) hshape_y
        refine allDescE_mono _ _ (fun x hx => ?_) _ hall
        simp only [Bool.or_eq_true]
        exact Or.inl (by simpa [nodeP, isShape, shapeN] using hx)
      have hpass2 : passE isShape (setRootStyle (sanitizeRoot e)) 1
          = (setRootStyle (sanitizeRoot e), 1) :=
        passE_id_of_blocked _ _ _ hblock2
      simp [hkey_y, hkf, hpass2]

/-! ### Claim C1 -/

/-- Claim C1 as stated: two-step key-synthesis policy.  If any group or
shape element already carries an `id`, no synthesized keys are assigned at
all; otherwise the first pass keys every group containing a shape, and the
second pass keys every primitive shape exactly when the first pass produced
zero keys (the counter returned by the first pass is still `1`). -/
def claimC1 (e : Elem) : Bool :=
  if anyIds (prep e) then
    keyVals (sanitizeRoot e) == keyVals (prep e)
  else
    allDescE groupKeyed (sanitizeRoot e) &&
    (!((firstPass e).2 == 1) || allDescE shapeKeyed (sanitizeRoot e)) &&
    (((firstPass e).2 == 1) || (keyVals (sanitizeRoot e) == keyVals (firstPass e).1))

/-- An `<svg>` with a `data-annot-key` attribute already present on a
non-shape element (as any re-uploaded previously-sanitized export has) and
a bare `<rect>`: no group or shape has an `id`, the first pass assigns zero
keys, and yet the second pass does not run, leaving the shape unkeyed. -/
def cexDocC1 : Elem :=
  .el "svg" [] (elist [
    .el "defs" [("data-annot-key", "x")] (elist []),
    .el "rect" [] (elist [])])

/-- Claim C1 fails on `cexDocC1`: the first pass produces zero keys
(counter still 1), but the bare shape does not receive a synthesized key,
because the pre-existing `data-annot-key` attribute suppresses the second
pass. -/
theorem c1_counterexample : claimC1 cexDocC1 = false := by decide

/-- Claim C1, amended: with no hand-authored `id` on any group/shape, the
first pass still keys every group containing a shape, but the second pass
runs only when no element carries a `data-annot-key` attribute after the
first pass — a pre-existing synthesized-key attribute anywhere in the
uploaded document also suppresses it (and when it is suppressed, the key
attributes are exactly those left by the first pass).  The already-keyed
branch is unchanged: any `id` on a group/shape disables synthesis
entirely. -/
theorem c1_amended (e : Elem) :
    (anyIds (prep e) = true → keyVals (sanitizeRoot e) = keyVals (prep e)) ∧
    (anyIds (prep e) = false →
      allDescE groupKeyed (sanitizeRoot e) = true ∧
      (existsDescE hasKeyAttr (firstPass e).1 = false →
        allDescE shapeKeyed (sanitizeRoot e) = true) ∧
      (existsDescE hasKeyAttr (firstPass e).1 = true →
        keyVals (sanitizeRoot e) = keyVals (firstPass e).1)) := by
  have hsan : sanitizeRoot e = injectE (synthKeys (prep e)) := rfl
  constructor
  · intro ht
    rw [hsan]
    simp only [synthKeys, ht, if_pos]
    exact keyVals_injectE (prep e)
  · intro hf
    have hfold : passE qualGroup (prep e) 1 = firstPass e := rfl
    by_cases hk : existsDescE hasKeyAttr (firstPass e).1 = true
    · have hsyn : synthKeys (prep e) = (firstPass e).1 := by
        simp only [synthKeys, hf, Bool.false_eq_true, if_neg,
          not_false_eq_true]
        rw [hfold, hk]
        simp
      refine ⟨?_, ?_, ?_⟩
      · rw [hsan, hsyn, allDescE_groupKeyed_injectE]
        exact passE_group_keyed (prep e) 1 hf
      · intro hcontra
        rw [hcontra] at hk
        exact absurd hk (by simp)
      · intro _
        rw [hsan, hsyn]
        exact keyVals_injectE (firstPass e).1
    · rw [Bool.not_eq_true] at hk
      have hsyn : synthKeys (prep e)
          = (passE isShape (firstPass e).1 (firstPass e).2).1 := by
        simp only [synthKeys, hf, Bool.false_eq_true, if_neg,
          not_false_eq_true]
        rw [hfold, hk]
        simp
      refine ⟨?_, ?_, ?_⟩
      · rw [hsan, hsyn, allDescE_groupKeyed_injectE,
          allDescE_groupKeyed_passE_shape]
        exact passE_group_keyed (prep e) 1 hf
      · intro _
        rw [hsan, hsyn, allDescE_shapeKeyed_injectE]
        refine passE_shape_keyed (firstPass e).1 (firstPass e).2 ?_ hk
        rw [anyIds_firstPass]
        exact hf
      · intro hcontra
        rw [hk] at hcontra
        exact absurd hcontra (by simp)

/-- Concrete document with a keyable group (no ids anywhere). -/
def wDocGroup : Elem :=
  .el "svg" [] (elist [.el "g" [] (elist [.el "rect" [] (elist [])])])

/-- Concrete document whose group carries a hand-authored id. -/
def wDocId : Elem :=
  .el "svg" [] (elist [.el "g" [("id", "iconA")] (elist [.el "rect" [] (elist [])])])

theorem c1_witness :
    keyVals (sanitizeRoot wDocGroup) = keyVals (firstPass wDocGroup).1 ∧
      keyVals (sanitizeRoot wDocId) = keyVals (prep wDocId) :=
  ⟨((c1_amended wDocGroup).2 (by decide)).2.2 (by decide),
    (c1_amended wDocId).1 (by decide)⟩

/-! ### Claim C2 -/

/-- The `style` attribute value of every node: root first, then all strict
descendants in document order. -/
def styleF (_ : String) (a : List (String × String)) : List (Option String) :=
  [getA a "style"]

def styleVals (e : Elem) : List (Option String) :=
  getA (attrsOf e) "style" :: chunksL styleF (childrenOf e)

/-- Claim C2 as stated: re-sanitizing sanitized markup keeps the key set
and the interactive-element count, and does not double the injected inline
styles (i.e. leaves every style attribute unchanged). -/
def claimC2 (e : Elem) : Bool :=
  (selKeys (sanitizeRoot (sanitizeRoot e)) == selKeys (sanitizeRoot e)) &&
  (interCount (sanitizeRoot (sanitizeRoot e)) == interCount (sanitizeRoot e)) &&
  (styleVals (sanitizeRoot (sanitizeRoot e)) == styleVals (sanitizeRoot e))

/-- A minimal document with one id-bearing shape. -/
def cexDocC2 : Elem :=
  .el "svg" [] (elist [.el "rect" [("id", "r")] (elist [])])

/-- Claim C2 fails on `cexDocC2`: the second sanitation pass appends the
root-sizing fragment to the root's style again and the interactivity
fragment to the shape's style again, so the style attributes are textually
doubled (the key set and the interactive count are preserved). -/
theorem c2_counterexample : claimC2 cexDocC2 = false := by decide

/-- Claim C2, amended: a second sanitation pass preserves the set of
identity keys and the interactive-element count, and performs no other
change than re-applying the style appends — its output is exactly the
style-injection step applied to the re-sized first output, so the injected
style fragments are appended a second time rather than left in place. -/
theorem c2_amended (e : Elem) :
    selKeys (sanitizeRoot (sanitizeRoot e)) = selKeys (sanitizeRoot e) ∧
    interCount (sanitizeRoot (sanitizeRoot e)) = interCount (sanitizeRoot e) ∧
    sanitizeRoot (sanitizeRoot e) = injectE (setRootStyle (sanitizeRoot e)) := by
  refine ⟨?_, ?_, sanitizeRoot_second e⟩
  · rw [sanitizeRoot_second, selKeys_injectE, selKeys_setRootStyle]
  · rw [sanitizeRoot_second, interCount_injectE, interCount_setRootStyle]

/-! ### Annotation records and JSON values

`Annot` is the per-key annotation record (`title`, `description` = notes,
`comments` in append order); a store snapshot is an ordered association
list, matching JavaScript object key-insertion order. -/

structure CommentItem where
  id : String
  text : String
  createdAt : String
deriving DecidableEq

structure Annot where
  title : String
  description : String
  comments : List CommentItem
deriving DecidableEq

/-- JSON values as produced by the program (only strings, arrays and
objects occur in its payloads). -/
inductive Json where
  | jstr (s : String)
  | jarr (xs : List Json)
  | jobj (fields : List (String × Json))

/-- One hexadecimal digit, lowercase (as `JSON.stringify` uses). -/
def hexDig (n : Nat) : Char :=
  if n < 10 then Char.ofNat (48 + n) else Char.ofNat (87 + n)

/-- `JSON.stringify` escaping of one character inside a string literal. -/
def jsonEscChar (c : Char) : List Char :=
  if c = '"' then ['\\', '"']
  else if c = '\\' then ['\\', '\\']
  else if c = '\n' then ['\\', 'n']
  else if c = '\r' then ['\\', 'r']
  else if c = '\t' then ['\\', 't']
  else if c.toNat = 8 then ['\\', 'b']
  else if c.toNat = 12 then ['\\', 'f']
  else if c.toNat < 32 then
    ['\\', 'u', '0', '0', hexDig (c.toNat / 16), hexDig (c.toNat % 16)]
  else [c]

/-- A JSON string literal: quoted, with every character escaped. -/
def jsonEscStr (s : String) : String :=
  String.mk ('"' :: (s.data.flatMap jsonEscChar ++ ['"']))

mutual

/-- `JSON.stringify` (compact layout; the 2-space indentation some call
sites pass is whitespace between tokens only and is elided here). -/
def stringifyJson : Json → String
  | .jstr s => jsonEscStr s
  | .jarr xs => "[" ++ stringifyArr xs ++ "]"
  | .jobj fs => "\x7b" ++ stringifyObj fs ++ "\x7d"

def stringifyArr : List Json → String
  | [] => ""
  | [x] => stringifyJson x
  | x :: xs => stringifyJson x ++ "," ++ stringifyArr xs

def stringifyObj : List (String × Json) → String
  | [] => ""
  | [kv] => jsonEscStr kv.1 ++ ":" ++ stringifyJson kv.2
  | kv :: kvs => jsonEscStr kv.1 ++ ":" ++ stringifyJson kv.2 ++ "," ++ stringifyObj kvs

end

def encodeComment (c : CommentItem) : Json :=
  .jobj [("id", .jstr c.id), ("text", .jstr c.text), ("createdAt", .jstr c.createdAt)]

def encodeAnnot (a : Annot) : Json :=
  .jobj [("title", .jstr a.title), ("description", .jstr a.description),
    ("comments", .jarr (a.comments.map encodeComment))]

/-- The annotation store snapshot as the JSON object
`{key: {title, description, comments}, ...}` in key order. -/
def encodeStore (st : List (String × Annot)) : Json :=
  .jobj (st.map fun kv => (kv.1, encodeAnnot kv.2))

/-! ### XML serialization (`XMLSerializer.serializeToString`) -/

def escTextChar (c : Char) : String :=
  if c = '&' then "&amp;"
  else if c = '<' then "&lt;"
  else if c = '>' then "&gt;"
  else String.singleton c

def escText (s : String) : String :=
  String.join (s.data.map escTextChar)

def escAttrChar (c : Char) : String :=
  if c = '"' then "&quot;" else escTextChar c

def escAttrV (s : String) : String :=
  String.join (s.data.map escAttrChar)

def serializeAttrs : List (String × String) → String
  | [] => ""
  | (k, v) :: rest => " " ++ k ++ "=" ++ "\"" ++ escAttrV v ++ "\"" ++ serializeAttrs rest

mutual

def serializeE : Elem → String
  | .txt s => escText s
  | .el t a cs => "<" ++ t ++ serializeAttrs a ++ ">" ++ serializeL cs ++ "</" ++ t ++ ">"

def serializeL : ElemList → String
  | .nil => ""
  | .cons c cs => serializeE c ++ serializeL cs

end

/-! ### buildAnnotatedSvg -/

/-- `(a.comments || []).map(c => c.text).filter(Boolean)`. -/
def commentTexts (a : Annot) : List String :=
  (a.comments.map fun c => c.text).filter fun t => t ≠ ""

/-- The tooltip (`<title>` child) text: label (key fallback), optional
notes line, optional first-two-comments line. -/
def tooltipText (k : String) (a : Annot) : String :=
  let label := if a.title.trim = "" then k else a.title.trim
  let notes := a.description.trim
  let cs := commentTexts a
  String.intercalate "\n"
    ([label]
      ++ (if notes = "" then [] else ["Notes: " ++ notes])
      ++ (if cs.isEmpty then []
          else ["Comments: " ++ String.intercalate " • " (cs.take 2)]))

/-- The description (`<desc>` child) text: label line, notes line or an
explicit placeholder, and up to ten comment lines or a placeholder. -/
def descText (k : String) (a : Annot) : String :=
  let label := if a.title.trim = "" then k else a.title.trim
  let notes := a.description.trim
  let cs := commentTexts a
  String.intercalate "\n"
    (["Label: " ++ label,
      if notes = "" then "Notes: (none)" else "Notes: " ++ notes]
      ++ (if cs.isEmpty then ["Comments: (none)"]
          else "Comments:" :: (cs.take 10).map fun t => "- " ++ t))

def setChildren (e : Elem) (cs : ElemList) : Elem :=
  match e with
  | .el t a _ => .el t a cs
  | .txt s => .txt s

/-- Reuse the first element child whose lowercased tag matches, replacing
its content (`textContent` assignment); report whether one was found. -/
def replaceFirstTagged (tag content : String) : ElemList → ElemList × Bool
  | .nil => (.nil, false)
  | .cons c cs =>
      if isElNode c && (tagOf c).toLower = tag then
        (.cons (setChildren c (.cons (.txt content) .nil)) cs, true)
      else
        let r := replaceFirstTagged tag content cs
        (.cons c r.1, r.2)

/-- `ensureChild` followed by a `textContent` assignment: reuse the first
matching element child, else insert a fresh one as first child. -/
def ensureChildSet (e : Elem) (tag content : String) : Elem :=
  match e with
  | .txt s => .txt s
  | .el t a cs =>
      let r := replaceFirstTagged tag content cs
      if r.2 then .el t a r.1
      else .el t a (.cons (.el tag [] (.cons (.txt content) .nil)) cs)

def idMatches (k : String) (e : Elem) : Bool :=
  getA (attrsOf e) "id" == some k

def keyMatches (k : String) (e : Elem) : Bool :=
  getA (attrsOf e) "data-annot-key" == some k

/-- `document.getElementById`-style search: the node itself or any
descendant element. -/
def existsNodeE (p : Elem → Bool) (e : Elem) : Bool :=
  (isElNode e && p e) || existsDescE p e

mutual

/-- Update the first matching element in pre-order (node before children). -/
def updFirstE (p : Elem → Bool) (f : Elem → Elem) : Elem → Elem × Bool
  | .txt s => (.txt s, false)
  | .el t a cs =>
      if p (.el t a cs) then (f (.el t a cs), true)
      else
        let r := updFirstL p f cs
        (.el t a r.1, r.2)

def updFirstL (p : Elem → Bool) (f : Elem → Elem) : ElemList → ElemList × Bool
  | .nil => (.nil, false)
  | .cons c cs =>
      let r := updFirstE p f c
      if r.2 then (.cons r.1 cs, true)
      else
        let r' := updFirstL p f cs
        (.cons c r'.1, r'.2)

end

/-- Whether the snapshot key `k` resolves to an element:
`doc.getElementById(key) || svg.querySelector('[data-annot-key="key"]')`
(an id lookup over the whole document — empty key matches nothing — else a
strict-descendant synthesized-key lookup). -/
def resolvesIn (root : Elem) (k : String) : Bool :=
  (k ≠ "" && existsNodeE (idMatches k) root) || existsDescE (keyMatches k) root

/-- Per-key step of `buildAnnotatedSvg`: resolve the element, then ensure
its `title` and `desc` children and set their texts; silently skip when the
key resolves to nothing. -/
def applyAnnot (k : String) (a : Annot) (root : Elem) : Elem :=
  let upd := fun el => ensureChildSet (ensureChildSet el "title" (tooltipText k a))
    "desc" (descText k a)
  if k ≠ "" && existsNodeE (idMatches k) root then
    (updFirstE (idMatches k) upd root).1
  else if existsDescE (keyMatches k) root then
    match root with
    | .el t a0 cs => .el t a0 (updFirstL (keyMatches k) upd cs).1
    | .txt s => .txt s
  else root

mutual

/-- Remove the first strict-descendant element matching `p`
(`svg.querySelector(...).remove()`). -/
def removeFirstL (p : Elem → Bool) : ElemList → ElemList × Bool
  | .nil => (.nil, false)
  | .cons c cs =>
      if isElNode c && p c then (cs, true)
      else
        let r := removeFirstC p c
        if r.2 then (.cons r.1 cs, true)
        else
          let r' := removeFirstL p cs
          (.cons c r'.1, r'.2)

def removeFirstC (p : Elem → Bool) : Elem → Elem × Bool
  | .txt s => (.txt s, false)
  | .el t a cs =>
      let r := removeFirstL p cs
      (.el t a r.1, r.2)

end

/-- The stale metadata node selector `metadata#svg-annotator-metadata`. -/
def isOldMeta (e : Elem) : Bool :=
  tagOf e = "metadata" && (getA (attrsOf e) "id" == some "svg-annotator-metadata")

/-- The fresh metadata node: export timestamp plus the whole snapshot as
structured text. -/
def annotMeta (now : String) (st : List (String × Annot)) : Elem :=
  .el "metadata" [("id", "svg-annotator-metadata")]
    (.cons (.txt (stringifyJson (.jobj
      [("exportedAt", .jstr now), ("annotations", encodeStore st)]))) .nil)

/-- `buildAnnotatedSvg` up to the per-key loop: strip scripts, drop any
stale metadata node, insert the fresh one as first child. -/
def withMeta (now : String) (st : List (String × Annot)) (svg : Elem) : Elem :=
  match stripE svg with
  | .el t a cs => .el t a (.cons (annotMeta now st) (removeFirstL isOldMeta cs).1)
  | .txt s => .txt s

/-- `buildAnnotatedSvg`: on a parse failure (no `<svg>` root — the modelled
failure of the `try`/`catch`) the original input string is returned
unchanged; otherwise the transformed document is serialized. -/
def buildAnnotatedSvg (input : String) (parse : Option Elem) (now : String)
    (st : List (String × Annot)) : String :=
  match parse with
  | none => input
  | some svg =>
      serializeE (st.foldl (fun d kv => applyAnnot kv.1 kv.2 d) (withMeta now st svg))

theorem applyAnnot_skip (k : String) (a : Annot) (d : Elem)
    (h : resolvesIn d k = false) : applyAnnot k a d = d := by
  simp only [resolvesIn, Bool.or_eq_false_iff] at h
  obtain ⟨h1, h2⟩ := h
  simp only [applyAnnot]
  rw [h1, h2]
  simp

theorem foldl_applyAnnot_skip (st : List (String × Annot)) (d : Elem)
    (h : ∀ kv ∈ st, resolvesIn d kv.1 = false) :
    st.foldl (fun d kv => applyAnnot kv.1 kv.2 d) d = d := by
  induction st with
  | nil => simp
  | cons kv st ih =>
      simp only [List.foldl_cons]
      rw [applyAnnot_skip kv.1 kv.2 d (h kv (by simp))]
      exact ih fun kv' hm => h kv' (by simp [hm])

/-! ### Claim C3 -/

/-- Claim C3: the annotated-SVG generator never hard-fails.  With no
parseable `<svg>` root the original input string is returned unchanged; a
snapshot key that resolves to no element is silently skipped; and when
every key is unresolvable the output is exactly the metadata-refresh of the
stripped document — no element's `title`/`desc` children are touched. -/
theorem c3_export_never_fails (input now : String) (st : List (String × Annot)) :
    buildAnnotatedSvg input none now st = input ∧
    (∀ (k : String) (a : Annot) (d : Elem),
      resolvesIn d k = false → applyAnnot k a d = d) ∧
    (∀ svg : Elem,
      (∀ kv ∈ st, resolvesIn (withMeta now st svg) kv.1 = false) →
      buildAnnotatedSvg input (some svg) now st
        = serializeE (withMeta now st svg)) := by
  refine ⟨rfl, fun k a d h => applyAnnot_skip k a d h, fun svg h => ?_⟩
  simp only [buildAnnotatedSvg]
  rw [foldl_applyAnnot_skip st _ h]

theorem c3_witness :
    buildAnnotatedSvg "not an svg" none "t0" [] = "not an svg" ∧
    applyAnnot "missing" ⟨"", "", []⟩ wDocId = wDocId ∧
    buildAnnotatedSvg "x" (some wDocId) "t0" [("missing", ⟨"", "", []⟩)]
      = serializeE (withMeta "t0" [("missing", ⟨"", "", []⟩)] wDocId) :=
  ⟨(c3_export_never_fails "not an svg" "t0" []).1,
    (c3_export_never_fails "x" "t0" []).2.1 "missing" ⟨"", "", []⟩ wDocId (by decide),
    (c3_export_never_fails "x" "t0" [("missing", ⟨"", "", []⟩)]).2.2 wDocId (by decide)⟩

/-! ### Click-target resolution (Selection Controller)

A click target inside the rendered SVG is identified by its path from the
root (child indices); `parentElement` is dropping the last index, and the
`el === svgEl` loop guard is the empty path.  `findKeyWalk` is the
`onClick` while-loop of the live controller; the embedded package's
`findKey` and the second implementation's recursive `SvgPane.findKey`
perform the identical walk. -/

def childAt : ElemList → Nat → Option Elem
  | .nil, _ => none
  | .cons c _, 0 => some c
  | .cons _ cs, n + 1 => childAt cs n

def elemAt : Elem → List Nat → Option Elem
  | e, [] => some e
  | .txt _, _ :: _ => none
  | .el _ _ cs, i :: p =>
      match childAt cs i with
      | some c => elemAt c p
      | none => none

def validPath (root : Elem) (p : List Nat) : Bool :=
  (elemAt root p).isSome

/-- The `onClick` loop:
`while (el && el !== svgEl && !getElementKey(el)) el = el.parentElement`
followed by `el && el !== svgEl ? getElementKey(el) : null`. -/
def findKeyWalk (root : Elem) : List Nat → Option String
  | [] => none
  | i :: p =>
      match elemAt root (i :: p) with
      | none => none
      | some e =>
          match getElementKey e with
          | some k => some k
          | none => findKeyWalk root ((i :: p).dropLast)
  termination_by p => p.length
  decreasing_by simp [List.length_dropLast]

/-- `if (!key) return; setSelectedKey(key);` — the selection transition on
a click at path `p`. -/
def clickStep (root : Elem) (sel : Option String) (p : List Nat) : Option String :=
  match findKeyWalk root p with
  | some k => some k
  | none => sel

/-- The chain of elements from the click target up through its ancestors,
excluding the SVG root. -/
def properChain (root : Elem) : List Nat → List Elem
  | [] => []
  | i :: p =>
      (match elemAt root (i :: p) with
       | some e => [e]
       | none => []) ++ properChain root ((i :: p).dropLast)
  termination_by p => p.length
  decreasing_by simp [List.length_dropLast]

def stepChild (i : Nat) (e : Elem) : Option Elem :=
  match e with
  | .el _ _ cs => childAt cs i
  | .txt _ => none

theorem elemAt_concat (q : List Nat) (i : Nat) :
    ∀ root : Elem, elemAt root (q ++ [i]) = (elemAt root q).bind (stepChild i) := by
  induction q with
  | nil =>
      intro root
      cases root with
      | txt s => simp [elemAt, stepChild]
      | el t a cs =>
          simp only [List.nil_append, elemAt, Option.bind, stepChild]
          cases childAt cs i <;> simp [elemAt]
  | cons j q ih =>
      intro root
      cases root with
      | txt s => simp [elemAt]
      | el t a cs =>
          simp only [List.cons_append, elemAt]
          cases childAt cs j with
          | none => simp
          | some c => exact ih c

theorem validPath_dropLast (root : Elem) (p : List Nat)
    (h : validPath root p = true) : validPath root p.dropLast = true := by
  rcases List.eq_nil_or_concat p with rfl | ⟨q, i, rfl⟩
  · simpa using h
  · rw [List.concat_eq_append] at h ⊢
    rw [List.dropLast_concat]
    rw [validPath, elemAt_concat] at h
    rw [validPath]
    cases hq : elemAt root q with
    | none => rw [hq] at h; simp [Option.bind] at h
    | some e => simp

theorem findKeyWalk_eq_firstKey (root : Elem) :
    ∀ (n : Nat) (p : List Nat), p.length ≤ n → validPath root p = true →
      findKeyWalk root p = ((properChain root p).filterMap getElementKey).head? := by
  intro n
  induction n with
  | zero =>
      intro p hlen _
      have : p = [] := List.eq_nil_of_length_eq_zero (Nat.le_zero.mp hlen)
      subst this
      simp [findKeyWalk, properChain]
  | succ n ih =>
      intro p hlen hv
      cases p with
      | nil => simp [findKeyWalk, properChain]
      | cons i q =>
          rw [validPath] at hv
          cases he : elemAt root (i :: q) with
          | none => rw [he] at hv; simp at hv
          | some e =>
              rw [findKeyWalk, properChain, he]
              cases hk : getElementKey e with
              | some k => simp [hk]
              | none =>
                  simp only [hk, List.singleton_append, List.filterMap_cons, hk]
                  refine ih ((i :: q).dropLast) ?_ ?_
                  · simp only [List.length_dropLast, List.length_cons] at hlen ⊢
                    omega
                  · exact validPath_dropLast root (i :: q)
                      (by rw [validPath, he]; rfl)

/-! ### Claim C4 -/

/-- Claim C4: a click's selected key is resolved by walking from the
target element up through its ancestors until one carries a key, stopping
before (and excluding) the SVG root; when no element on that path carries
a key, the click is ignored and the selection is unchanged. -/
theorem c4_click_resolution (root : Elem) (sel : Option String) (p : List Nat)
    (h : validPath root p = true) :
    (∀ k, ((properChain root p).filterMap getElementKey).head? = some k →
      clickStep root sel p = some k) ∧
    (((properChain root p).filterMap getElementKey).head? = none →
      clickStep root sel p = sel) := by
  have hmain := findKeyWalk_eq_firstKey root p.length p (Nat.le_refl _) h
  constructor
  · intro k hk
    rw [clickStep, hmain, hk]
  · intro hk
    rw [clickStep, hmain, hk]

/-- Nested-target document: the click lands on the `<rect>` two levels
below the root; the key resolves to the enclosing group's id. -/
theorem c4_witness :
    clickStep wDocId none [0, 0] = some "iconA" ∧
    clickStep wDocGroup (some "prior") [0, 0] = some "prior" :=
  ⟨(c4_click_resolution wDocId none [0, 0] (by decide)).1 "iconA"
      (by simp [properChain, elemAt, childAt, wDocId, elist, getElementKey,
        keyOfAttrs, getA, attrsOf, truthyA, List.dropLast]),
    (c4_click_resolution wDocGroup (some "prior") [0, 0] (by decide)).2
      (by simp [properChain, elemAt, childAt, wDocGroup, elist, getElementKey,
        keyOfAttrs, getA, attrsOf, truthyA, List.dropLast])⟩

/-! ### Root-exclusion facts (Claim C10) -/

/-- The root's attributes play no role in the key-synthesis step. -/
theorem childrenOf_synthKeys (t : String) (a : List (String × String))
    (cs : ElemList) :
    childrenOf (synthKeys (.el t a cs)) =
      (if existsDescL isIdCarrier cs then cs
       else
        if existsDescL hasKeyAttr (passL qualGroup cs 1).1 then
          (passL qualGroup cs 1).1
        else (passL isShape (passL qualGroup cs 1).1 (passL qualGroup cs 1).2).1) := by
  rw [synthKeys]
  by_cases hb : existsDescL isIdCarrier cs
  · have hb2 : anyIds (.el t a cs) = true := hb
    simp [hb2, hb, childrenOf]
  · have hb' : anyIds (.el t a cs) = false := Bool.eq_false_iff.mpr hb
    simp only [hb', Bool.false_eq_true, if_neg, not_false_eq_true, passE]
    by_cases hk : existsDescL hasKeyAttr (passL qualGroup cs 1).1
    · have hk2 : existsDescE hasKeyAttr (.el t a (passL qualGroup cs 1).1) = true := hk
      simp [hk2, hk, hb, childrenOf]
    · have hk' : existsDescE hasKeyAttr (.el t a (passL qualGroup cs 1).1) = false :=
        Bool.eq_false_iff.mpr hk
      simp [hk', hk, hb, childrenOf, passE]

/-- The root's own attributes pass through key synthesis untouched. -/
theorem attrsOf_synthKeys (t : String) (a : List (String × String))
    (cs : ElemList) : attrsOf (synthKeys (.el t a cs)) = a := by
  rw [synthKeys]
  by_cases hb : anyIds (.el t a cs)
  · simp [hb, attrsOf]
  · have hb' : anyIds (.el t a cs) = false := Bool.eq_false_iff.mpr hb
    simp only [hb', Bool.false_eq_true, if_neg, not_false_eq_true, passE]
    by_cases hk : existsDescE hasKeyAttr (.el t a (passL qualGroup cs 1).1)
    · simp [hk, attrsOf]
    · have hk' := Bool.eq_false_iff.mpr hk
      simp [hk', attrsOf, passE]

theorem attrsOf_injectE (e : Elem) : attrsOf (injectE e) = attrsOf e := by
  cases e <;> simp [injectE, attrsOf]

theorem isElNode_synthKeys_el (t : String) (a : List (String × String))
    (cs : ElemList) : ∃ cs', synthKeys (.el t a cs) = .el t a cs' := by
  rw [synthKeys]
  by_cases hb : anyIds (.el t a cs)
  · exact ⟨cs, by simp [hb]⟩
  · have hb' : anyIds (.el t a cs) = false := Bool.eq_false_iff.mpr hb
    simp only [hb', Bool.false_eq_true, if_neg, not_false_eq_true, passE]
    by_cases hk : existsDescE hasKeyAttr (.el t a (passL qualGroup cs 1).1)
    · refine ⟨(passL qualGroup cs 1).1, ?_⟩
      simp [hk]
    · have hk' := Bool.eq_false_iff.mpr hk
      refine ⟨(passL isShape (passL qualGroup cs 1).1 (passL qualGroup cs 1).2).1, ?_⟩
      simp [hk', passE]

theorem getElementKey_txt (s : String) : getElementKey (.txt s) = none := rfl

theorem allDescL_childAt (p : Elem → Bool) :
    ∀ (cs : ElemList) (i : Nat) (c : Elem), childAt cs i = some c →
      allDescL p cs = true →
      isElNode c = false ∨ (p c = true ∧ allDescE p c = true)
  | .nil, i, c, hc, _ => by simp [childAt] at hc
  | .cons c0 cs, 0, c, hc, hall => by
      simp only [childAt, Option.some.injEq] at hc
      subst hc
      simp only [allDescL, Bool.and_eq_true] at hall
      obtain ⟨h1, _⟩ := hall
      cases c0 with
      | txt s => exact Or.inl rfl
      | el t a cs' =>
          simp only [isElNode, Bool.not_true, Bool.false_or,
            Bool.and_eq_true] at h1
          exact Or.inr h1
  | .cons c0 cs, n + 1, c, hc, hall => by
      simp only [childAt] at hc
      simp only [allDescL, Bool.and_eq_true] at hall
      exact allDescL_childAt p cs n c hc hall.2

/-- If `p` holds at `e` and at every descendant of `e`, it holds at any
element found below `e` by a path (text nodes assumed to satisfy `p`). -/
theorem elemAt_pred (p : Elem → Bool) (hptxt : ∀ s, p (.txt s) = true) :
    ∀ (q : List Nat) (e e' : Elem), p e = true → allDescE p e = true →
      elemAt e q = some e' → p e' = true := by
  intro q
  induction q with
  | nil =>
      intro e e' hp _ he
      simp only [elemAt, Option.some.injEq] at he
      rw [← he]; exact hp
  | cons i q ih =>
      intro e e' hp hall he
      cases e with
      | txt s => simp [elemAt] at he
      | el t a cs =>
          simp only [elemAt] at he
          cases hc : childAt cs i with
          | none => rw [hc] at he; cases he
          | some c =>
              rw [hc] at he
              have hcc := allDescL_childAt p cs i c hc
                (by simpa [allDescE] using hall)
              cases c with
              | txt s => exact ih (.txt s) e' (hptxt s) (by simp [allDescE]) he
              | el t' a' cs' =>
                  rcases hcc with hcc | ⟨hc1, hc2⟩
                  · simp [isElNode] at hcc
                  · exact ih _ e' hc1 hc2 he

/-- With no key anywhere below the root, the walk finds nothing. -/
theorem findKeyWalk_none (root : Elem)
    (hnd : allDescE (fun x => (getElementKey x).isNone) root = true) :
    ∀ (n : Nat) (p : List Nat), p.length ≤ n → findKeyWalk root p = none := by
  have hptxt : ∀ s, (fun x => (getElementKey x).isNone) (Elem.txt s) = true := by
    intro s
    simp [getElementKey_txt]
  intro n
  induction n with
  | zero =>
      intro p hlen
      have : p = [] := List.eq_nil_of_length_eq_zero (Nat.le_zero.mp hlen)
      subst this
      simp [findKeyWalk]
  | succ n ih =>
      intro p hlen
      cases p with
      | nil => simp [findKeyWalk]
      | cons i q =>
          rw [findKeyWalk]
          cases he : elemAt root (i :: q) with
          | none => simp
          | some e =>
              have hkey : (getElementKey e).isNone = true := by
                cases root with
                | txt s => simp [elemAt] at he
                | el t a cs =>
                    simp only [elemAt] at he
                    cases hc : childAt cs i with
                    | none => rw [hc] at he; cases he
                    | some c =>
                        rw [hc] at he
                        have hcc := allDescL_childAt
                          (fun x => (getElementKey x).isNone) cs i c hc
                          (by simpa [allDescE] using hnd)
                        cases c with
                        | txt s =>
                            exact elemAt_pred
                              (fun x => (getElementKey x).isNone) hptxt q
                              (.txt s) e (hptxt s) (by simp [allDescE]) he
                        | el t' a' cs' =>
                            rcases hcc with hcc | ⟨hc1, hc2⟩
                            · simp [isElNode] at hcc
                            · exact elemAt_pred
                                (fun x => (getElementKey x).isNone) hptxt q
                                _ e hc1 hc2 he
              rw [Option.isNone_iff_eq_none] at hkey
              simp only [hkey]
              refine ih ((i :: q).dropLast) ?_
              simp only [List.length_dropLast, List.length_cons] at hlen ⊢
              omega

/-! ### Claim C10 -/

/-- Claim C10: an `id` on the root `<svg>` element is ignored throughout.
It does not count in the already-keyed scan and does not affect key
synthesis at all; the root never receives the interactivity style (its
style is exactly the input style plus the sizing fragment, id or not); and
the click ancestor-walk excludes the root, so with no keyed element below
the root a click never selects anything — even when the root carries an
`id`. -/
theorem c10_root_id_ignored :
    (∀ (v : String) (a : List (String × String)) (cs : ElemList),
      anyIds (.el "svg" (("id", v) :: a) cs) = anyIds (.el "svg" a cs) ∧
      keyVals (sanitizeRoot (.el "svg" (("id", v) :: a) cs))
        = keyVals (sanitizeRoot (.el "svg" a cs))) ∧
    (∀ (t : String) (a : List (String × String)) (cs : ElemList),
      getA (attrsOf (sanitizeRoot (.el t a cs))) "style"
        = some (((getA a "style").getD "") ++ " " ++ sizingStyle)) ∧
    (∀ (root : Elem) (sel : Option String) (p : List Nat),
      allDescE (fun x => (getElementKey x).isNone) root = true →
      validPath root p = true → clickStep root sel p = sel) := by
  refine ⟨fun v a cs => ⟨rfl, ?_⟩, fun t a cs => ?_, fun root sel p hnd _ => ?_⟩
  · have hch : ∀ (a' : List (String × String)),
        keyVals (sanitizeRoot (.el "svg" a' cs))
          = chunksL keyValF (injectL (childrenOf (synthKeys
              (.el "svg" (setA a' "style"
                (((getA a' "style").getD "") ++ " " ++ sizingStyle))
                (stripL cs))))) := by
      intro a'
      show keyVals (injectE (synthKeys (setRootStyle (stripE
        (.el "svg" a' cs))))) = _
      simp only [stripE, setRootStyle]
      obtain ⟨cs', hcs'⟩ := isElNode_synthKeys_el "svg"
        (setA a' "style" (((getA a' "style").getD "") ++ " " ++ sizingStyle))
        (stripL cs)
      rw [keyVals, hcs', childrenOf_injectE, ← hcs']
    rw [hch, hch, childrenOf_synthKeys, childrenOf_synthKeys]
  · show getA (attrsOf (injectE (synthKeys (setRootStyle (stripE
      (.el t a cs)))))) "style" = _
    simp only [stripE, setRootStyle]
    rw [attrsOf_injectE, attrsOf_synthKeys]
    exact getA_setA_self a "style" _
  · rw [clickStep, findKeyWalk_none root hnd p.length p (Nat.le_refl _)]

/-- Root with a hand-authored id and an unkeyed shape below it. -/
def wDocRootId : Elem :=
  .el "svg" [("id", "rootid")] (elist [.el "rect" [] (elist [])])

theorem c10_witness :
    clickStep wDocRootId (some "keep") [0] = some "keep" :=
  (c10_root_id_ignored.2.2) wDocRootId (some "keep") [0] (by decide) (by decide)

/-! ### JSON decoding (for the export round trip) -/

def jfields : Json → List (String × Json)
  | .jobj fs => fs
  | _ => []

def jlookup : List (String × Json) → String → Option Json
  | [], _ => none
  | (n, v) :: rest, k => if n = k then some v else jlookup rest k

def decodeComment : Json → Option CommentItem
  | .jobj fs =>
      match jlookup fs "id", jlookup fs "text", jlookup fs "createdAt" with
      | some (.jstr i), some (.jstr t), some (.jstr c) => some ⟨i, t, c⟩
      | _, _, _ => none
  | _ => none

/-- Decode each element, failing if any single decode fails. -/
def optMap {α β : Type} (f : α → Option β) : List α → Option (List β)
  | [] => some []
  | a :: l =>
      match f a, optMap f l with
      | some b, some bs => some (b :: bs)
      | _, _ => none

def decodeAnnot : Json → Option Annot
  | .jobj fs =>
      match jlookup fs "title", jlookup fs "description", jlookup fs "comments" with
      | some (.jstr t), some (.jstr d), some (.jarr cs) =>
          match optMap decodeComment cs with
          | some cl => some ⟨t, d, cl⟩
          | none => none
      | _, _, _ => none
  | _ => none

/-- Read a snapshot back from its JSON object form (as the application does
with `JSON.parse(...)` and structural field access). -/
def decodeStore : Json → Option (List (String × Annot))
  | .jobj fs => optMap (fun kv => (decodeAnnot kv.2).map fun a => (kv.1, a)) fs
  | _ => none

theorem decodeComment_encodeComment (c : CommentItem) :
    decodeComment (encodeComment c) = some c := rfl

theorem optMap_decodeComment (cl : List CommentItem) :
    optMap decodeComment (cl.map encodeComment) = some cl := by
  induction cl with
  | nil => rfl
  | cons c cl ih =>
      simp [optMap, decodeComment_encodeComment, ih]

theorem decodeAnnot_encodeAnnot (a : Annot) :
    decodeAnnot (encodeAnnot a) = some a := by
  simp [decodeAnnot, encodeAnnot, jlookup, optMap_decodeComment a.comments]

theorem decodeStore_encodeStore (st : List (String × Annot)) :
    decodeStore (encodeStore st) = some st := by
  simp only [decodeStore, encodeStore]
  induction st with
  | nil => rfl
  | cons kv st ih =>
      simp only [List.map_cons, optMap, decodeAnnot_encodeAnnot, Option.map_some]
      rw [ih]
      simp

/-! ### The JSON export generators of the two implementations -/

/-- `parsedSvg.svg || svgText || ""` — the markup whose text the first
implementation embeds in its JSON export (JavaScript `||`: empty strings
fall through). -/
def computeExportBase (parsed : Option String) (svgText : String) : String :=
  match parsed with
  | some s => if s ≠ "" then s else (if svgText ≠ "" then svgText else "")
  | none => if svgText ≠ "" then svgText else ""

/-- First implementation, `computeExport` with format `json`:
`{ exportedAt: nowIso(), svgText: baseSvgMarkup, annotations }`. -/
def computeExportJson (now : String) (parsed : Option String) (svgText : String)
    (st : List (String × Annot)) : Json :=
  .jobj [("exportedAt", .jstr now),
    ("svgText", .jstr (computeExportBase parsed svgText)),
    ("annotations", encodeStore st)]

/-- Second implementation, `ExportGenerator` with format `json`:
`JSON.stringify({ exportedAt: nowIso(), annotations }, null, 2)` — note
no `svgText` member. -/
def exportGeneratorJson (now : String) (st : List (String × Annot)) : Json :=
  .jobj [("exportedAt", .jstr now), ("annotations", encodeStore st)]

/-! ### Claim C5 -/

/-- Claim C5 fails on the second implementation: its JSON export carries
no `svgText` member at all (here at a concrete timestamp and the empty
snapshot), so the export does not contain the sanitized SVG text. -/
theorem c5_counterexample :
    jlookup (jfields (exportGeneratorJson "2024-01-01T00:00:00.000Z" []))
      "svgText" = none := rfl

/-- Claim C5, amended: the first implementation's JSON export is a
structured dump with all three members — export timestamp, the (sanitized,
when parsing succeeded) SVG text, and the full snapshot, whose
`annotations` member parses back to a store identical to the snapshot
(key set, titles, descriptions, comment text in append order).  The second
implementation's JSON export carries the timestamp and the round-tripping
snapshot but omits the SVG text entirely. -/
theorem c5_amended (now : String) (parsed : Option String) (svgText : String)
    (st : List (String × Annot)) :
    jlookup (jfields (computeExportJson now parsed svgText st)) "exportedAt"
      = some (.jstr now) ∧
    jlookup (jfields (computeExportJson now parsed svgText st)) "svgText"
      = some (.jstr (computeExportBase parsed svgText)) ∧
    (match jlookup (jfields (computeExportJson now parsed svgText st))
        "annotations" with
      | some j => decodeStore j
      | none => none) = some st ∧
    jlookup (jfields (exportGeneratorJson now st)) "exportedAt"
      = some (.jstr now) ∧
    (match jlookup (jfields (exportGeneratorJson now st)) "annotations" with
      | some j => decodeStore j
      | none => none) = some st ∧
    jlookup (jfields (exportGeneratorJson now st)) "svgText" = none := by
  refine ⟨rfl, rfl, ?_, rfl, ?_, rfl⟩
  · show decodeStore (encodeStore st) = some st
    exact decodeStore_encodeStore st
  · show decodeStore (encodeStore st) = some st
    exact decodeStore_encodeStore st

/-! ### Session state machines of the two implementations -/

/-- First implementation (`SvgAnnotator` component): raw text state plus
selection and the annotation store; the rendered document is derived from
`svgText` by the `parsedSvg` memo. -/
structure Session0 where
  svgText : String
  selectedKey : Option String
  annots : List (String × Annot)
deriving DecidableEq

/-- The `parsedSvg` memo: empty/blank text parses to nothing with no
error; otherwise `safeParseSvg` yields the sanitized document or the
descriptive error.  The `DOMParser` outcome is the `pr` argument. -/
def parsedSvg0 (text : String) (pr : Option Elem) : Option Elem × Option String :=
  if text.data.all Char.isWhitespace then (none, none)
  else
    match pr with
    | none => (none, some "No <svg> root found in file.")
    | some e => (some (sanitizeRoot e), none)

/-- `onUploadSvg`'s reader callback: `setSelectedKey(null); setSvgText(text);`
— nothing else. -/
def onUploadSvg (st : Session0) (text : String) : Session0 :=
  { svgText := text, selectedKey := none, annots := st.annots }

/-- Second implementation (`InteractiveSvgAnnotator`): sanitized markup (or
none) plus selection and store. -/
structure Session1 where
  svg : Option String
  selectedKey : Option String
  annots : List (String × Annot)
deriving DecidableEq

/-- `handleUpload(svgMarkup)`: `setState({svg, annotations: {}})` and
`setSelectedKey(null)`. -/
def handleUpload (_ : Session1) (markup : String) : Session1 :=
  { svg := some markup, selectedKey := none, annots := [] }

/-- `Uploader.handleFile`: run `safeParseSvg`; on error set the message and
change nothing else; on success hand the sanitized markup to `onUpload`. -/
def uploaderHandleFile (st : Session1) (pr : Option Elem) :
    Session1 × Option String :=
  match pr with
  | none => (st, some "No <svg> root found in file.")
  | some e => (handleUpload st (serializeE (sanitizeRoot e)), none)

/-! ### Claim C6 -/

/-- Claim C6 fails on the first implementation: at a concrete prior session
with a non-empty store, uploading a new document keeps the entire store
(only the selection is reset). -/
theorem c6_counterexample :
    (onUploadSvg ⟨"<svg>old</svg>", some "k", [("k", ⟨"t", "d", []⟩)]⟩
        "<svg>new</svg>").annots = [("k", ⟨"t", "d", []⟩)] ∧
    [("k", (⟨"t", "d", []⟩ : Annot))] ≠ ([] : List (String × Annot)) :=
  ⟨rfl, by decide⟩

/-- Claim C6, amended: on every upload both implementations force the
selection back to none; the second implementation replaces the annotation
store with an empty one, but the first implementation's upload handler
leaves the previous document's store entirely in place (neither cleared
nor merged — simply retained). -/
theorem c6_amended (st0 : Session0) (text : String) (st1 : Session1)
    (markup : String) :
    (onUploadSvg st0 text).selectedKey = none ∧
    (onUploadSvg st0 text).annots = st0.annots ∧
    (handleUpload st1 markup).selectedKey = none ∧
    (handleUpload st1 markup).annots = [] :=
  ⟨rfl, rfl, rfl, rfl⟩

/-! ### Claim C7 -/

/-- Claim C7 fails on the first implementation: uploading malformed text
over a concrete prior session replaces the stored raw text and clears the
selection (prior state is not untouched). -/
theorem c7_counterexample :
    (onUploadSvg ⟨"<svg>old</svg>", some "k", [("k", ⟨"t", "d", []⟩)]⟩
        "garbage").svgText ≠ "<svg>old</svg>" ∧
    (onUploadSvg ⟨"<svg>old</svg>", some "k", [("k", ⟨"t", "d", []⟩)]⟩
        "garbage").selectedKey ≠ some "k" := by
  constructor <;> decide

/-- Claim C7, amended: on text with no parseable `<svg>` root, both
implementations surface the descriptive message and load no document, and
the annotation store survives; the second implementation leaves all prior
state untouched, but the first stores the malformed text as the new raw
text and resets the selection to none. -/
theorem c7_amended (st1 : Session1) (st0 : Session0) (text : String)
    (hne : text.data.all Char.isWhitespace = false) :
    uploaderHandleFile st1 none = (st1, some "No <svg> root found in file.") ∧
    parsedSvg0 text none = (none, some "No <svg> root found in file.") ∧
    (onUploadSvg st0 text).annots = st0.annots ∧
    (onUploadSvg st0 text).svgText = text ∧
    (onUploadSvg st0 text).selectedKey = none := by
  refine ⟨rfl, ?_, rfl, rfl, rfl⟩
  simp [parsedSvg0, hne]

theorem c7_witness :
    uploaderHandleFile ⟨some "<svg></svg>", some "k", []⟩ none
        = (⟨some "<svg></svg>", some "k", []⟩,
          some "No <svg> root found in file.") ∧
      parsedSvg0 "garbage" none = (none, some "No <svg> root found in file.") :=
  ⟨(c7_amended ⟨some "<svg></svg>", some "k", []⟩ ⟨"", none, []⟩ "garbage"
      (by decide)).1,
    (c7_amended ⟨some "<svg></svg>", some "k", []⟩ ⟨"", none, []⟩ "garbage"
      (by decide)).2.1⟩

/-! ### Substring search (for statements about generated text) -/

def matchesAt : List Char → List Char → Bool
  | [], _ => true
  | _ :: _, [] => false
  | p :: ps, c :: cs => p = c && matchesAt ps cs

def hasSub (pat : List Char) : List Char → Bool
  | [] => pat.isEmpty
  | c :: cs => matchesAt pat (c :: cs) || hasSub pat cs

def strContains (s pat : String) : Bool := hasSub pat.data s.data

/-! ### Script-freeness of the annotated-SVG generator's whole output -/

mutual

theorem removeFirstL_pres (np : String → List (String × String) → Bool)
    (q : Elem → Bool) :
    ∀ cs : ElemList, existsDescL (nodeP np) cs = false →
      existsDescL (nodeP np) (removeFirstL q cs).1 = false
  | .nil, _ => by simp [removeFirstL, existsDescL]
  | .cons c cs, h => by
      simp only [existsDescL, Bool.or_eq_false_iff, Bool.and_eq_false_iff] at h
      obtain ⟨h1, h2⟩ := h
      rw [removeFirstL]
      by_cases hq : isElNode c && q c
      · simp only [hq, if_pos]
        exact h2
      · simp only [hq, Bool.false_eq_true, if_neg, not_false_eq_true]
        by_cases hr : (removeFirstC q c).2
        · simp only [hr, if_pos, existsDescL, Bool.or_eq_false_iff,
            Bool.and_eq_false_iff]
          refine ⟨?_, h2⟩
          cases c with
          | txt s => simp [removeFirstC, isElNode]
          | el t a cs0 =>
              rcases h1 with h1 | h1
              · simp [isElNode] at h1
              · obtain ⟨hp, hd⟩ := h1
                right
                simp only [removeFirstC]
                constructor
                · simpa [nodeP, tagOf, attrsOf] using hp
                · simp only [existsDescE] at hd ⊢
                  exact removeFirstL_pres np q cs0 hd
        · simp only [hr, Bool.false_eq_true, if_neg, not_false_eq_true,
            existsDescL, Bool.or_eq_false_iff]
          refine ⟨?_, removeFirstL_pres np q cs h2⟩
          rw [Bool.and_eq_false_iff]
          rcases h1 with h1 | h1
          · exact Or.inl h1
          · right
            rw [Bool.or_eq_false_iff]
            exact h1

end

theorem setChildren_el (t : String) (a : List (String × String))
    (cs cs' : ElemList) : setChildren (.el t a cs) cs' = .el t a cs' := rfl

theorem replaceFirstTagged_pres (np : String → List (String × String) → Bool)
    (tag content : String) :
    ∀ cs : ElemList, existsDescL (nodeP np) cs = false →
      existsDescL (nodeP np) (replaceFirstTagged tag content cs).1 = false
  | .nil, _ => by simp [replaceFirstTagged, existsDescL]
  | .cons c cs, h => by
      simp only [existsDescL, Bool.or_eq_false_iff] at h
      obtain ⟨h1, h2⟩ := h
      rw [replaceFirstTagged]
      by_cases hq : isElNode c && (tagOf c).toLower = tag
      · simp only [hq, if_pos, existsDescL, Bool.or_eq_false_iff]
        refine ⟨?_, h2⟩
        cases c with
        | txt s => simp [setChildren, isElNode]
        | el t a cs0 =>
            rw [setChildren_el]
            rw [Bool.and_eq_false_iff] at h1
            rcases h1 with h1 | h1
            · simp [isElNode] at h1
            · rw [Bool.or_eq_false_iff] at h1
              rw [Bool.and_eq_false_iff]
              right
              rw [Bool.or_eq_false_iff]
              refine ⟨by simpa [nodeP, tagOf, attrsOf] using h1.1, ?_⟩
              simp [existsDescE, existsDescL, isElNode]
      · simp only [hq, Bool.false_eq_true, if_neg, not_false_eq_true,
          existsDescL, Bool.or_eq_false_iff]
        exact ⟨h1, replaceFirstTagged_pres np tag content cs h2⟩

theorem ensureChildSet_nodeP (np : String → List (String × String) → Bool)
    (tag content : String) (e : Elem) :
    nodeP np (ensureChildSet e tag content) = nodeP np e := by
  cases e with
  | txt s => rfl
  | el t a cs =>
      rw [ensureChildSet]
      by_cases hr : (replaceFirstTagged tag content cs).2
      · simp [hr, nodeP, tagOf, attrsOf]
      · simp [hr, nodeP, tagOf, attrsOf]

theorem ensureChildSet_desc (np : String → List (String × String) → Bool)
    (tag content : String) (htag : np tag [] = false) (e : Elem)
    (hd : existsDescE (nodeP np) e = false) :
    existsDescE (nodeP np) (ensureChildSet e tag content) = false := by
  cases e with
  | txt s => exact hd
  | el t a cs =>
      simp only [existsDescE] at hd
      rw [ensureChildSet]
      by_cases hr : (replaceFirstTagged tag content cs).2
      · simp only [hr, if_pos, existsDescE]
        exact replaceFirstTagged_pres np tag content cs hd
      · simp only [hr, Bool.false_eq_true, if_neg, not_false_eq_true,
          existsDescE, existsDescL, isElNode, Bool.true_and,
          Bool.or_eq_false_iff]
        refine ⟨⟨?_, ?_⟩, hd⟩
        · simpa [nodeP, tagOf, attrsOf] using htag
        · simp [existsDescE, existsDescL, isElNode]

mutual

theorem updFirstE_pres (np : String → List (String × String) → Bool)
    (q : Elem → Bool) (f : Elem → Elem)
    (htxt : ∀ s, nodeP np (.txt s) = false)
    (hfn : ∀ x, nodeP np (f x) = nodeP np x)
    (hfd : ∀ x, existsDescE (nodeP np) x = false →
      existsDescE (nodeP np) (f x) = false) :
    ∀ c : Elem, existsDescE (nodeP np) c = false →
      nodeP np (updFirstE q f c).1 = nodeP np c ∧
        existsDescE (nodeP np) (updFirstE q f c).1 = false
  | .txt s, hd => by simp [updFirstE, hd]
  | .el t a cs, hd => by
      rw [updFirstE]
      by_cases hq : q (.el t a cs)
      · simp only [hq, if_pos]
        exact ⟨hfn _, hfd _ hd⟩
      · simp only [hq, Bool.false_eq_true, if_neg, not_false_eq_true]
        simp only [existsDescE] at hd ⊢
        exact ⟨by simp [nodeP, tagOf, attrsOf],
          updFirstL_pres np q f htxt hfn hfd cs hd⟩

theorem updFirstL_pres (np : String → List (String × String) → Bool)
    (q : Elem → Bool) (f : Elem → Elem)
    (htxt : ∀ s, nodeP np (.txt s) = false)
    (hfn : ∀ x, nodeP np (f x) = nodeP np x)
    (hfd : ∀ x, existsDescE (nodeP np) x = false →
      existsDescE (nodeP np) (f x) = false) :
    ∀ cs : ElemList, existsDescL (nodeP np) cs = false →
      existsDescL (nodeP np) (updFirstL q f cs).1 = false
  | .nil, _ => by simp [updFirstL, existsDescL]
  | .cons c cs, h => by
      simp only [existsDescL, Bool.or_eq_false_iff] at h
      obtain ⟨h1, h2⟩ := h
      have hcn : nodeP np c = false ∧ existsDescE (nodeP np) c = false := by
        cases c with
        | txt s => exact ⟨htxt s, rfl⟩
        | el t' a' cs' =>
            rw [Bool.and_eq_false_iff] at h1
            rcases h1 with h1 | h1
            · simp [isElNode] at h1
            · rw [Bool.or_eq_false_iff] at h1; exact h1
      obtain ⟨hu1, hu2⟩ := updFirstE_pres np q f htxt hfn hfd c hcn.2
      rw [updFirstL]
      by_cases hr : (updFirstE q f c).2
      · simp only [hr, if_pos, existsDescL, Bool.or_eq_false_iff]
        refine ⟨?_, h2⟩
        rw [Bool.and_eq_false_iff]
        right
        rw [Bool.or_eq_false_iff]
        exact ⟨hu1.trans hcn.1, hu2⟩
      · simp only [hr, Bool.false_eq_true, if_neg, not_false_eq_true,
          existsDescL, Bool.or_eq_false_iff]
        refine ⟨?_, updFirstL_pres np q f htxt hfn hfd cs h2⟩
        rw [Bool.and_eq_false_iff]
        right
        rw [Bool.or_eq_false_iff]
        exact hcn

end

theorem scriptN_txt (s : String) : nodeP scriptN (.txt s) = false := rfl

/-- The per-key `title`/`desc` update cannot introduce a script element. -/
theorem applyAnnot_noScript (k : String) (a : Annot) (d : Elem)
    (hd : existsDescE (nodeP scriptN) d = false) :
    existsDescE (nodeP scriptN) (applyAnnot k a d) = false := by
  have hfn : ∀ x, nodeP scriptN (ensureChildSet
      (ensureChildSet x "title" (tooltipText k a)) "desc" (descText k a))
      = nodeP scriptN x := by
    intro x
    rw [ensureChildSet_nodeP, ensureChildSet_nodeP]
  have hfd : ∀ x, existsDescE (nodeP scriptN) x = false →
      existsDescE (nodeP scriptN) (ensureChildSet
        (ensureChildSet x "title" (tooltipText k a)) "desc" (descText k a))
      = false := by
    intro x hx
    exact ensureChildSet_desc scriptN "desc" (descText k a) (by decide) _
      (ensureChildSet_desc scriptN "title" (tooltipText k a) (by decide) x hx)
  simp only [applyAnnot]
  by_cases hc1 : k ≠ "" && existsNodeE (idMatches k) d
  · simp only [hc1, if_pos]
    exact (updFirstE_pres scriptN (idMatches k) _ scriptN_txt hfn hfd d hd).2
  · simp only [hc1, Bool.false_eq_true, if_neg, not_false_eq_true]
    by_cases hc2 : existsDescE (keyMatches k) d
    · simp only [hc2, if_pos]
      cases d with
      | txt s => exact hd
      | el t a0 cs =>
          simp only [existsDescE] at hd ⊢
          exact updFirstL_pres scriptN (keyMatches k) _ scriptN_txt hfn hfd cs hd
    · simp only [hc2, Bool.false_eq_true, if_neg, not_false_eq_true]
      exact hd

/-- The metadata-refresh step yields a script-free document from any input. -/
theorem withMeta_noScript (now : String) (st : List (String × Annot))
    (svg : Elem) :
    existsDescE (nodeP scriptN) (withMeta now st svg) = false := by
  rw [withMeta]
  have hstrip := stripE_noScript svg
  cases hs : stripE svg with
  | txt s => rfl
  | el t a cs =>
      rw [hs] at hstrip
      simp only [existsDescE] at hstrip
      simp only [existsDescE, existsDescL, Bool.or_eq_false_iff]
      refine ⟨?_, removeFirstL_pres scriptN isOldMeta cs hstrip⟩
      rw [Bool.and_eq_false_iff]
      right
      rw [Bool.or_eq_false_iff]
      constructor
      · simp only [annotMeta, nodeP, tagOf, attrsOf]
        decide
      · simp [annotMeta, existsDescE, existsDescL, isElNode]

theorem foldl_applyAnnot_noScript (st : List (String × Annot)) (d : Elem)
    (hd : existsDescE (nodeP scriptN) d = false) :
    existsDescE (nodeP scriptN)
      (st.foldl (fun d kv => applyAnnot kv.1 kv.2 d) d) = false := by
  induction st generalizing d with
  | nil => simpa using hd
  | cons kv st ih =>
      simp only [List.foldl_cons]
      exact ih _ (applyAnnot_noScript kv.1 kv.2 d hd)

/-! ### The HTML package's defensive clean step -/

/-- The clean step of `buildHtmlPackage`: on parse success strip scripts
and re-apply the responsive root sizing; on failure (the `catch`) keep the
original text. -/
def htmlCleanSvg (input : String) (parse : Option Elem) : String :=
  match parse with
  | none => input
  | some svg => serializeE (setRootStyle (stripE svg))

/-! ### Claim C8 -/

/-- Claim C8 fails on the JSON generator: when the caller's parse failed,
`computeExport`'s json branch embeds the raw unsanitized text — here a
literal script element — directly in its output. -/
theorem c8_counterexample :
    strContains
      (stringifyJson (computeExportJson "2024-01-01T00:00:00.000Z" none
        "<script>alert(1)</script>" []))
      "<script" = true := by decide

/-- Claim C8, amended: the annotated-SVG generator strips scripts first and
its whole output document stays script-free through every later step, and
the HTML-package generator's clean step strips scripts (and re-applies root
sizing) — but the JSON generator performs no sanitation of its own: it
embeds `parsedSvg.svg || svgText || ""` exactly as given, which is
pipeline-sanitized text only when the caller's parse succeeded. -/
theorem c8_amended (now input svgText : String) (st : List (String × Annot))
    (svg : Elem) (parsed : Option String) :
    existsDescE (nodeP scriptN)
      (st.foldl (fun d kv => applyAnnot kv.1 kv.2 d) (withMeta now st svg))
      = false ∧
    existsDescE (nodeP scriptN) (setRootStyle (stripE svg)) = false ∧
    htmlCleanSvg input (some svg) = serializeE (setRootStyle (stripE svg)) ∧
    jlookup (jfields (computeExportJson now parsed svgText st)) "svgText"
      = some (.jstr (computeExportBase parsed svgText)) := by
  refine ⟨?_, ?_, rfl, rfl⟩
  · exact foldl_applyAnnot_noScript st _ (withMeta_noScript now st svg)
  · rw [existsDescE_setRootStyle]
    exact stripE_noScript svg

/-! ### Claim C9: the closing-script escapes of `buildHtmlPackage` -/

/-- Case-insensitive character comparison (the regex `i` flag, ASCII). -/
def cieq (a b : Char) : Bool :=
  a == b || (a.isUpper && (a.toNat + 32 == b.toNat))
    || (a.isLower && (a.toNat == b.toNat + 32))

/-- `pat` is a case-insensitive prefix of the text. -/
def matchesCi : List Char → List Char → Bool
  | [], _ => true
  | _ :: _, [] => false
  | p :: ps, c :: cs => cieq p c && matchesCi ps cs

/-- `pat` occurs case-insensitively somewhere in the text. -/
def hasSubCi (pat : List Char) : List Char → Bool
  | [] => pat.isEmpty
  | c :: cs => matchesCi pat (c :: cs) || hasSubCi pat cs

def scrL : List Char := ['/', 's', 'c', 'r', 'i', 'p', 't']

/-- The hazard pattern: the characters of a closing-script sequence. -/
def csPat : List Char := '<' :: scrL

/-- `.replace(/<\x5c/(script)/gi, "<\x5c\x5c/$1")`: scanning left to right,
each case-insensitive closing-script sequence gets a backslash inserted
after its `<` (the captured six letters keep their original case), and
scanning resumes after the match. -/
def escCSL : List Char → List Char
  | [] => []
  | c :: cs =>
      if c == '<' && matchesCi scrL cs then
        '<' :: '\\' :: '/' :: ((cs.drop 1).take 6 ++ escCSL ((cs.drop 1).drop 6))
      else c :: escCSL cs
termination_by l => l.length
decreasing_by
  all_goals simp [List.length_drop]
  all_goals omega

def escCS (s : String) : String := String.mk (escCSL s.data)

/-- `cleanSvg` after both steps of `buildHtmlPackage`: the defensive
parse/strip/resize (or raw passthrough on failure), then the
closing-script escape. -/
def cleanSvg (svgMarkup : String) (parse : Option Elem) : String :=
  escCS (htmlCleanSvg svgMarkup parse)

/-- `JSON.stringify(cleanSvg)`: the JS string literal inlined at
`svgHost.innerHTML = ...`. -/
def svgJsString (svgMarkup : String) (parse : Option Elem) : String :=
  stringifyJson (.jstr (cleanSvg svgMarkup parse))

/-- `.replace(/</g, "\x5cu003c")` over the characters of a string. -/
def replaceLtL : List Char → List Char
  | [] => []
  | c :: cs =>
      (if c = '<' then ['\\', 'u', '0', '0', '3', 'c'] else [c]) ++ replaceLtL cs

def replaceLt (s : String) : String := String.mk (replaceLtL s.data)

/-- `safeJson`: the annotation-snapshot data block embedded inside
`<script type="application/json" id="annotationsJson">...</script>`. -/
def safeJson (now : String) (st : List (String × Annot)) : String :=
  replaceLt (stringifyJson (.jobj
    [("exportedAt", .jstr now), ("annotations", encodeStore st)]))

theorem cieq_lt (c : Char) : cieq '<' c = ('<' == c) := by
  have h1 : Char.isUpper '<' = false := by decide
  have h2 : Char.isLower '<' = false := by decide
  simp [cieq, h1, h2]

theorem cieq_lt_of (p a : Char) (hp : cieq p '<' = false) (h : cieq p a = true) :
    cieq '<' a = false := by
  rw [cieq_lt]
  by_cases ha : a = '<'
  · subst ha
    exact absurd h (by simp [hp])
  · exact beq_eq_false_iff_ne.mpr fun he => ha he.symm

theorem cieq_lt_hexDig : ∀ n < 16, cieq '<' (hexDig n) = false := by decide

/-- No character of a `JSON.stringify` escape expansion of a non-`<`
character can start a closing-script sequence. -/
theorem jsonEscChar_not_lt (c : Char) (hc : c ≠ '<') :
    ∀ ch ∈ jsonEscChar c, cieq '<' ch = false := by
  intro ch hch
  unfold jsonEscChar at hch
  split_ifs at hch with h1 h2 h3 h4 h5 h6 h7 h8
  · simp only [List.mem_cons, List.not_mem_nil, or_false] at hch
    rcases hch with rfl | rfl <;> decide
  · simp only [List.mem_cons, List.not_mem_nil, or_false] at hch
    rcases hch with rfl | rfl <;> decide
  · simp only [List.mem_cons, List.not_mem_nil, or_false] at hch
    rcases hch with rfl | rfl <;> decide
  · simp only [List.mem_cons, List.not_mem_nil, or_false] at hch
    rcases hch with rfl | rfl <;> decide
  · simp only [List.mem_cons, List.not_mem_nil, or_false] at hch
    rcases hch with rfl | rfl <;> decide
  · simp only [List.mem_cons, List.not_mem_nil, or_false] at hch
    rcases hch with rfl | rfl <;> decide
  · simp only [List.mem_cons, List.not_mem_nil, or_false] at hch
    rcases hch with rfl | rfl <;> decide
  · simp only [List.mem_cons, List.not_mem_nil, or_false] at hch
    rcases hch with rfl | rfl | rfl | rfl | rfl | rfl
    · decide
    · decide
    · decide
    · decide
    · exact cieq_lt_hexDig _ (by omega)
    · exact cieq_lt_hexDig _ (by omega)
  · simp only [List.mem_singleton] at hch
    subst hch
    rw [cieq_lt]
    exact beq_eq_false_iff_ne.mpr (Ne.symm hc)

/-- A block none of whose characters can start the pattern may be prefixed
without creating an occurrence. -/
theorem hasSubCi_block (X : List Char) (hX : hasSubCi csPat X = false) :
    ∀ block : List Char, (∀ ch ∈ block, cieq '<' ch = false) →
      hasSubCi csPat (block ++ X) = false
  | [], _ => hX
  | b :: bs, hb => by
      simp only [List.cons_append, hasSubCi, Bool.or_eq_false_iff]
      refine ⟨?_, hasSubCi_block X hX bs fun ch h => hb ch (by simp [h])⟩
      have hbb : cieq '<' b = false := hb b (by simp)
      simp only [csPat, matchesCi, hbb, Bool.false_and]

/-- A `JSON.stringify` escape expansion is the character itself or starts
with a backslash. -/
theorem jsonEscChar_shape (d : Char) :
    jsonEscChar d = [d] ∨ ∃ t, jsonEscChar d = '\\' :: t := by
  unfold jsonEscChar
  split_ifs
  · exact Or.inr ⟨['"'], rfl⟩
  · exact Or.inr ⟨['\\'], rfl⟩
  · exact Or.inr ⟨['n'], rfl⟩
  · exact Or.inr ⟨['r'], rfl⟩
  · exact Or.inr ⟨['t'], rfl⟩
  · exact Or.inr ⟨['b'], rfl⟩
  · exact Or.inr ⟨['f'], rfl⟩
  · exact Or.inr ⟨_, rfl⟩
  · exact Or.inl rfl

/-- A case-insensitive match into the stringified characters (for a pattern
free of backslash and quote) pulls back to a match on the source. -/
theorem matchesCi_flatMap : ∀ w : List Char,
    (∀ ch ∈ w, cieq ch '\\' = false ∧ cieq ch '"' = false) →
    ∀ m : List Char, matchesCi w (m.flatMap jsonEscChar ++ ['"']) = true →
      matchesCi w m = true
  | [], _, _, _ => rfl
  | p :: ps, hw, m, hm => by
      have hpb : cieq p '\\' = false := (hw p (by simp)).1
      have hpq : cieq p '"' = false := (hw p (by simp)).2
      cases m with
      | nil =>
          have hq : matchesCi (p :: ps) ['"'] = true := hm
          simp only [matchesCi, hpq, Bool.false_and] at hq
          exact absurd hq Bool.false_ne_true
      | cons d ds =>
          have hm' : matchesCi (p :: ps)
              (jsonEscChar d ++ (ds.flatMap jsonEscChar ++ ['"'])) = true := by
            rw [← List.append_assoc]
            exact hm
          clear hm
          rcases jsonEscChar_shape d with hs | ⟨t, hs⟩
          · rw [hs, List.singleton_append] at hm'
            simp only [matchesCi, Bool.and_eq_true] at hm'
            simp only [matchesCi, Bool.and_eq_true]
            exact ⟨hm'.1,
              matchesCi_flatMap ps (fun ch h => hw ch (by simp [h])) ds hm'.2⟩
          · rw [hs, List.cons_append] at hm'
            simp only [matchesCi, hpb, Bool.false_and] at hm'
            exact absurd hm' Bool.false_ne_true

/-- A case-insensitive match into the escaped characters (for a pattern
whose characters cannot match `<`) pulls back to a match on the source. -/
theorem matchesCi_escCSL : ∀ w : List Char,
    (∀ ch ∈ w, cieq ch '<' = false) →
    ∀ m : List Char, matchesCi w (escCSL m) = true → matchesCi w m = true
  | [], _, _, _ => rfl
  | p :: ps, hw, m, hm => by
      have hp : cieq p '<' = false := hw p (by simp)
      cases m with
      | nil =>
          rw [show escCSL [] = [] from by simp [escCSL]] at hm
          simp [matchesCi] at hm
      | cons d ds =>
          simp only [escCSL] at hm
          by_cases hb : d == '<' && matchesCi scrL ds
          · rw [if_pos hb] at hm
            simp only [matchesCi, hp, Bool.false_and] at hm
            exact absurd hm Bool.false_ne_true
          · rw [if_neg hb] at hm
            simp only [matchesCi, Bool.and_eq_true] at hm ⊢
            exact ⟨hm.1,
              matchesCi_escCSL ps (fun ch h => hw ch (by simp [h])) ds hm.2⟩

/-- The closing-script escape leaves no case-insensitive `</script`
occurrence anywhere in its output, whatever the input. -/
theorem escCSL_noCS : ∀ l : List Char, hasSubCi csPat (escCSL l) = false
  | [] => by simp [escCSL, hasSubCi, csPat, scrL]
  | c :: cs => by
      simp only [escCSL]
      by_cases hb : c == '<' && matchesCi scrL cs
      · rw [if_pos hb]
        have hb' := hb
        rw [Bool.and_eq_true] at hb'
        obtain ⟨hc, hm⟩ := hb'
        cases cs with
        | nil => exact absurd hm (by decide)
        | cons d0 cs0 =>
        simp only [scrL, matchesCi, Bool.and_eq_true] at hm
        obtain ⟨e0, hm⟩ := hm
        cases cs0 with
        | nil => simp [matchesCi] at hm
        | cons d1 cs1 =>
        simp only [matchesCi, Bool.and_eq_true] at hm
        obtain ⟨e1, hm⟩ := hm
        cases cs1 with
        | nil => simp [matchesCi] at hm
        | cons d2 cs2 =>
        simp only [matchesCi, Bool.and_eq_true] at hm
        obtain ⟨e2, hm⟩ := hm
        cases cs2 with
        | nil => simp [matchesCi] at hm
        | cons d3 cs3 =>
        simp only [matchesCi, Bool.and_eq_true] at hm
        obtain ⟨e3, hm⟩ := hm
        cases cs3 with
        | nil => simp [matchesCi] at hm
        | cons d4 cs4 =>
        simp only [matchesCi, Bool.and_eq_true] at hm
        obtain ⟨e4, hm⟩ := hm
        cases cs4 with
        | nil => simp [matchesCi] at hm
        | cons d5 cs5 =>
        simp only [matchesCi, Bool.and_eq_true] at hm
        obtain ⟨e5, hm⟩ := hm
        cases cs5 with
        | nil => simp [matchesCi] at hm
        | cons d6 r7 =>
        simp only [matchesCi, Bool.and_eq_true] at hm
        obtain ⟨e6, hm⟩ := hm
        show hasSubCi csPat
          ('<' :: '\\' :: '/' :: d1 :: d2 :: d3 :: d4 :: d5 :: d6 :: escCSL r7)
          = false
        have g0 : cieq '<' '<' = true := by decide
        have ga : cieq '/' '\\' = false := by decide
        have gb : cieq '<' '\\' = false := by decide
        have gc : cieq '<' '/' = false := by decide
        have f1 : cieq '<' d1 = false := cieq_lt_of 's' d1 (by decide) e1
        have f2 : cieq '<' d2 = false := cieq_lt_of 'c' d2 (by decide) e2
        have f3 : cieq '<' d3 = false := cieq_lt_of 'r' d3 (by decide) e3
        have f4 : cieq '<' d4 = false := cieq_lt_of 'i' d4 (by decide) e4
        have f5 : cieq '<' d5 = false := cieq_lt_of 'p' d5 (by decide) e5
        have f6 : cieq '<' d6 = false := cieq_lt_of 't' d6 (by decide) e6
        have hrec := escCSL_noCS r7
        simp only [csPat, scrL] at hrec
        simp only [csPat, scrL, hasSubCi, matchesCi, g0, ga, gb, gc,
          f1, f2, f3, f4, f5, f6, Bool.true_and, Bool.false_and,
          Bool.and_false, Bool.false_or, Bool.or_false]
        exact hrec
      · rw [if_neg hb]
        have hb' : (c == '<' && matchesCi scrL cs) = false := by
          rw [Bool.eq_false_iff]
          exact hb
        rw [Bool.and_eq_false_iff] at hb'
        simp only [hasSubCi, Bool.or_eq_false_iff]
        refine ⟨?_, escCSL_noCS cs⟩
        rcases hb' with hb' | hb'
        · have hcc : cieq '<' c = false := by
            rw [cieq_lt]
            rw [beq_eq_false_iff_ne] at hb' ⊢
            exact fun he => hb' he.symm
          simp only [csPat, matchesCi, hcc, Bool.false_and]
        · have hx : matchesCi scrL (escCSL cs) = false := by
            cases hxx : matchesCi scrL (escCSL cs) with
            | false => rfl
            | true =>
                exact absurd (matchesCi_escCSL scrL (by decide) cs hxx)
                  (by simp [hb'])
          simp only [csPat, matchesCi, hx, Bool.and_false]
termination_by l => l.length
decreasing_by
  all_goals simp [List.length_drop]
  all_goals omega

/-- Stringifying a string free of closing-script sequences yields a JS
string literal still free of them. -/
theorem flatMapEsc_noCS : ∀ l : List Char, hasSubCi csPat l = false →
    hasSubCi csPat (l.flatMap jsonEscChar ++ ['"']) = false
  | [], _ => by decide
  | c :: cs, h => by
      rw [hasSubCi, Bool.or_eq_false_iff] at h
      obtain ⟨hm1, h2⟩ := h
      have ihcs := flatMapEsc_noCS cs h2
      show hasSubCi csPat
        ((jsonEscChar c ++ cs.flatMap jsonEscChar) ++ ['"']) = false
      rw [List.append_assoc]
      by_cases hc : c = '<'
      · subst hc
        rw [show jsonEscChar '<' = ['<'] from by decide]
        rw [List.singleton_append]
        rw [hasSubCi, Bool.or_eq_false_iff]
        refine ⟨?_, ihcs⟩
        have g0 : cieq '<' '<' = true := by decide
        have hm1' : matchesCi scrL cs = false := by
          simp only [csPat, matchesCi, g0, Bool.true_and] at hm1
          exact hm1
        have hx : matchesCi scrL (cs.flatMap jsonEscChar ++ ['"']) = false := by
          cases hxx : matchesCi scrL (cs.flatMap jsonEscChar ++ ['"']) with
          | false => rfl
          | true =>
              exact absurd (matchesCi_flatMap scrL (by decide) cs hxx)
                (by simp [hm1'])
        simp only [csPat, matchesCi, hx, Bool.and_false]
      · exact hasSubCi_block (cs.flatMap jsonEscChar ++ ['"']) ihcs
          (jsonEscChar c) (jsonEscChar_not_lt c hc)

theorem jsonEscStr_noCS (s : String) (h : hasSubCi csPat s.data = false) :
    hasSubCi csPat (jsonEscStr s).data = false := by
  show hasSubCi csPat ('"' :: (s.data.flatMap jsonEscChar ++ ['"'])) = false
  rw [hasSubCi, Bool.or_eq_false_iff]
  constructor
  · have hq : cieq '<' '"' = false := by decide
    simp only [csPat, matchesCi, hq, Bool.false_and]
  · exact flatMapEsc_noCS s.data h

/-- The `\x5cu003c` replacement removes every `<` character. -/
theorem replaceLtL_no_lt : ∀ l : List Char, ∀ ch ∈ replaceLtL l, ch ≠ '<'
  | [], ch, h => by simp [replaceLtL] at h
  | c :: cs, ch, h => by
      simp only [replaceLtL, List.mem_append] at h
      rcases h with h | h
      · by_cases hc : c = '<'
        · rw [if_pos hc] at h
          intro he
          subst he
          exact absurd h (by decide)
        · rw [if_neg hc] at h
          simp only [List.mem_singleton] at h
          subst h
          exact hc
      · exact replaceLtL_no_lt cs ch h

/-- Claim C9: in `buildHtmlPackage`, after the
`.replace(/<\x5c/(script)/gi, "<\x5c\x5c/$1")` step the cleaned SVG text
contains no case-insensitive `</script` sequence at all; the JS string
literal actually embedded (`JSON.stringify(cleanSvg)`, inlined at
`svgHost.innerHTML = ...`) therefore also contains none; and the
annotation-snapshot block `safeJson` has every `<` replaced by `\x5cu003c`,
so it contains no `<` character whatsoever and cannot close its containing
script tag. -/
theorem c9_package_escaping (svgMarkup now : String) (parse : Option Elem)
    (st : List (String × Annot)) :
    hasSubCi "</script".data (cleanSvg svgMarkup parse).data = false ∧
    hasSubCi "</script".data (svgJsString svgMarkup parse).data = false ∧
    ∀ ch ∈ (safeJson now st).data, ch ≠ '<' := by
  rw [show ("</script".data) = csPat from by decide]
  refine ⟨escCSL_noCS _, ?_, ?_⟩
  · exact jsonEscStr_noCS (escCS (htmlCleanSvg svgMarkup parse)) (escCSL_noCS _)
  · intro ch hch
    exact replaceLtL_no_lt _ ch hch

end SvgAnnotator
